import Mathlib

/-!
Vote aggregator of the BL5340 Edge Impulse vibration demo.

Shallow embedding of the classification vote aggregator found in the body of
the `while (1)` loop of `main` in `src/main.cpp` (everything after
`run_classifier` has returned), with the file-scope variables `times`, `runs`,
`prev_fails`, `total_runs`, `run_time_dsp` and `run_time_classification`
gathered in an explicit state record.

Machine integers are natural numbers reduced modulo `2^w` at every store into
a `uint8_t`, `uint16_t` or `uint32_t` variable.  Classifier scores (`float` in
the source) are rationals, so every finite score is representable and the
comparison `>` is the usual order; NaN is outside the model.  The label count
`EI_CLASSIFIER_LABEL_COUNT` comes from a generated header that is not part of
the repository: it is the common length of `times` and of the classification
array, and the loops `for (ix = 0; ix < EI_CLASSIFIER_LABEL_COUNT; ix++)` are
recursions over those lists that carry the running index `ix`.
-/

namespace VibrationDemo

/-! ## Constants (main.cpp lines 22-35 and 72-81) -/

/-- Number of times to check: `#define CHECK_BUCKETS 20`. -/
def CHECK_BUCKETS : Nat := 20

/-- Minimum number of pass-points needed to declare a winning frequency. -/
def MIN_BUCKETS : Nat := CHECK_BUCKETS / 2

/-- Minimum number of pass-points needed to declare an error frequency. -/
def ERR_BUCKETS : Nat := CHECK_BUCKETS / 4

/-- Minimum number of buckets that must have `ERR_BUCKETS` entries or more
before the result is declared invalid. -/
def ERR_BUCKETS_FAIL_COUNT : Nat := 3

/-- Minimum number of failures in a row before throwing an error back. -/
def ERR_FAILS_IN_ROW : Nat := 3

/-- Array of entries that are considered good (10Hz ... 50Hz outputs). -/
def good_points : List Nat := [1, 3, 4, 5, 6]

/-! ## Data model -/

/-- The part of `ei_impulse_result_t` that `main` reads: one score per label
and the two timing measurements (`int` in the SDK). -/
structure ImpulseResult where
  classification : List ℚ
  timing_dsp : Int
  timing_classification : Int

/-- The file-scope variables of main.cpp lines 65-70. -/
structure State where
  /-- `uint8_t times[EI_CLASSIFIER_LABEL_COUNT]` -/
  times : List Nat
  /-- `uint8_t runs` -/
  runs : Nat
  /-- `uint8_t prev_fails` -/
  prev_fails : Nat
  /-- `uint32_t total_runs` -/
  total_runs : Nat
  /-- `uint16_t run_time_dsp` -/
  run_time_dsp : Nat
  /-- `uint16_t run_time_classification` -/
  run_time_classification : Nat
deriving DecidableEq, Repr

/-- State at program start for a model with `L` labels: zero-initialised
statics, `total_runs = 1`. -/
def initState (L : Nat) : State :=
  { times := List.replicate L 0, runs := 0, prev_fails := 0, total_runs := 1,
    run_time_dsp := 0, run_time_classification := 0 }

/-- Narrative line printed for a resolved window (readable output mode);
the base classification of the window. -/
inductive Outcome where
  /-- "Detection failure (no winning entry)" -/
  | NoWinner
  /-- "Detection failure (fail bucket count reached)" -/
  | Ambiguous
  /-- "Low frequency (...) - good" -/
  | GoodFrequency
  /-- "High/stationary frequency (...) - bad" -/
  | BadFrequency
deriving DecidableEq, Repr

/-- Everything reported for one resolved window: the per-label counts, the
locals of the resolution block (lines 171-179), the accumulated timings and
the narrative line. -/
structure Verdict where
  counts : List Nat
  entries_over_min : Nat
  entries_over_err : Nat
  max_id : Nat
  max_val : Nat
  max_dup : Nat
  good_pass : Bool
  bad_pass : Bool
  high_fail : Bool
  single_fail : Bool
  run_time_dsp : Nat
  run_time_classification : Nat
  /-- narrative lines printed for the window, in order -/
  outcome : List Outcome
deriving DecidableEq, Repr

/-! ## Winning label of one run (lines 150-158) -/

/-- The loop `for (ix ...) if (value > largest) { largest = value;
largest_index = ix; }` from index `ix` on; `largest_index` is a `uint8_t`. -/
def findLargest : List ℚ → Nat → ℚ → Nat → Nat
  | [], _, _, largest_index => largest_index
  | value :: rest, ix, largest, largest_index =>
    if value > largest then findLargest rest (ix + 1) value (ix % 256)
    else findLargest rest (ix + 1) largest largest_index

/-- Lines 151-158: `largest = 0`, `largest_index = 0`, then the scan. -/
def largestIndex (r : ImpulseResult) : Nat :=
  findLargest r.classification 0 0 0

/-! ## Accumulation (lines 160-163) -/

/-- `++times[i]` on a `uint8_t` array.  An index past the end leaves the list
as it is; `largestIndex_lt` shows that the index used by `accumulate` is within
the array as soon as there is at least one label. -/
def incrAt : List Nat → Nat → List Nat
  | [], _ => []
  | t :: ts, 0 => ((t + 1) % 256) :: ts
  | t :: ts, i + 1 => t :: incrAt ts i

/-- `acc += x` where `acc` is a `uint16_t` and `x` an `int`. -/
def addU16 (acc : Nat) (x : Int) : Nat :=
  (((acc : Int) + x) % 65536).toNat

/-- Lines 160-163: count the run for its winning label. -/
def accumulate (s : State) (r : ImpulseResult) : State :=
  { s with
    times := incrAt s.times (largestIndex r)
    runs := (s.runs + 1) % 256
    run_time_dsp := addU16 s.run_time_dsp r.timing_dsp
    run_time_classification := addU16 s.run_time_classification r.timing_classification }

/-! ## Window resolution (lines 169-301) -/

/-- The five `uint8_t` locals updated by the scan of lines 187-211. -/
structure Scan where
  entries_over_min : Nat
  entries_over_err : Nat
  max_id : Nat
  max_val : Nat
  max_dup : Nat
deriving DecidableEq, Repr

/-- Values of the locals before the scan (lines 175-179). -/
def scanInit : Scan :=
  { entries_over_min := 0, entries_over_err := 0, max_id := 0, max_val := 0, max_dup := 1 }

/-- One iteration of the loop of lines 187-211 at index `ix` with
`times[ix] = t`. -/
def scanStep (ix t : Nat) (a : Scan) : Scan :=
  let eom := if t ≥ MIN_BUCKETS then (a.entries_over_min + 1) % 256 else a.entries_over_min
  let eoe := if t ≥ ERR_BUCKETS then (a.entries_over_err + 1) % 256 else a.entries_over_err
  if t ≥ a.max_val then
    if t = a.max_val then
      { entries_over_min := eom, entries_over_err := eoe, max_id := a.max_id,
        max_val := a.max_val, max_dup := (a.max_dup + 1) % 256 }
    else
      { entries_over_min := eom, entries_over_err := eoe, max_id := ix % 256,
        max_val := t, max_dup := 1 }
  else
    { entries_over_min := eom, entries_over_err := eoe, max_id := a.max_id,
      max_val := a.max_val, max_dup := a.max_dup }

/-- The loop of lines 187-211 from index `ix` on. -/
def scanLoop : List Nat → Nat → Scan → Scan
  | [], _, a => a
  | t :: ts, ix, a => scanLoop ts (ix + 1) (scanStep ix t a)

/-- The whole scan of `times`. -/
def scanTimes (times : List Nat) : Scan :=
  scanLoop times 0 scanInit

/-- The `while (i < 5)` loop of lines 251-263 from `i` on, over the remaining
entries of `good_points`: returns `good_pass` and the final value of `i`. -/
def goodLoop : List Nat → Nat → Nat → Bool × Nat
  | [], _, i => (false, i)
  | g :: gs, max_id, i =>
    if g = max_id then (true, i) else goodLoop gs max_id ((i + 1) % 256)

/-- Lines 169-301 for a state in which `runs >= CHECK_BUCKETS`: the verdict
and the state after the reset. -/
def resolve (s : State) : State × Verdict :=
  let a := scanTimes s.times
  let reset (pf : Nat) : State :=
    { times := List.replicate s.times.length 0, runs := 0, prev_fails := pf,
      total_runs := (s.total_runs + 1) % 4294967296,
      run_time_dsp := 0, run_time_classification := 0 }
  let report (pf : Nat) (good bad high single : Bool) (o : List Outcome) : State × Verdict :=
    (reset pf,
     { counts := s.times, entries_over_min := a.entries_over_min,
       entries_over_err := a.entries_over_err, max_id := a.max_id, max_val := a.max_val,
       max_dup := a.max_dup, good_pass := good, bad_pass := bad, high_fail := high,
       single_fail := single, run_time_dsp := s.run_time_dsp,
       run_time_classification := s.run_time_classification, outcome := o })
  if a.entries_over_min = 0 then
    let pf := (s.prev_fails + 1) % 256
    if pf ≥ ERR_FAILS_IN_ROW then report pf false false true false [Outcome.NoWinner]
    else report pf false false false true [Outcome.NoWinner]
  else if a.entries_over_err ≥ ERR_BUCKETS_FAIL_COUNT then
    let pf := (s.prev_fails + 1) % 256
    if pf ≥ ERR_FAILS_IN_ROW then report pf false false true false [Outcome.Ambiguous]
    else report pf false false false true [Outcome.Ambiguous]
  else
    let gi := goodLoop good_points a.max_id 0
    let o1 := if gi.1 then [Outcome.GoodFrequency] else []
    if gi.2 = good_points.length then
      report s.prev_fails gi.1 true false false (o1 ++ [Outcome.BadFrequency])
    else
      report s.prev_fails gi.1 false false false o1

/-- One pass of the aggregator: count the run, and resolve the window when
`runs >= CHECK_BUCKETS` (line 169). -/
def record (s : State) (r : ImpulseResult) : State × Option Verdict :=
  let s1 := accumulate s r
  if s1.runs ≥ CHECK_BUCKETS then
    let sv := resolve s1
    (sv.1, some sv.2)
  else (s1, none)

/-- Successive passes over a sequence of classification results: the final
state and what each call returned. -/
def recordAll : State → List ImpulseResult → State × List (Option Verdict)
  | s, [] => (s, [])
  | s, r :: rs =>
    let sv := record s r
    let rest := recordAll sv.1 rs
    (rest.1, sv.2 :: rest.2)

/-- A classification result whose only positive score is at label `i`. -/
def oneHot (L i : Nat) : ImpulseResult :=
  { classification := (List.range L).map (fun j => if j = i then 1 else 0),
    timing_dsp := 3, timing_classification := 1 }

/-! ## Sample inputs -/

/-- A window of 20 runs in which labels 0..4 of an 8-label model win 4 runs
each, in rotation. -/
def spreadWindow : List ImpulseResult :=
  (List.range 20).map (fun k => oneHot 8 (k % 5))

/-- A window of 20 runs of an 8-label model: label 0 wins 10, labels 1 and 2
win 5 each. -/
def splitWindow : List ImpulseResult :=
  List.replicate 10 (oneHot 8 0) ++ List.replicate 5 (oneHot 8 1) ++
    List.replicate 5 (oneHot 8 2)

/-- A window of 20 runs of an 8-label model that label `g` wins every time. -/
def unanimousWindow (g : Nat) : List ImpulseResult :=
  List.replicate 20 (oneHot 8 g)

/-- The state of an 8-label model, fresh from start, after 19 runs that label 1
won. -/
def nearlyUnanimous : State :=
  { times := [0, 19, 0, 0, 0, 0, 0, 0], runs := 19, prev_fails := 0, total_runs := 1,
    run_time_dsp := 57, run_time_classification := 19 }

/-- The verdict of the window that label 1 wins 20 times out of 20. -/
def unanimousVerdict : Verdict :=
  { counts := [0, 20, 0, 0, 0, 0, 0, 0], entries_over_min := 1, entries_over_err := 1,
    max_id := 1, max_val := 20, max_dup := 1, good_pass := true, bad_pass := false,
    high_fail := false, single_fail := false, run_time_dsp := 60,
    run_time_classification := 20, outcome := [Outcome.GoodFrequency] }

/-- The state of an 8-label model after two failed windows and 19 runs of a
third that labels 0..4 win in rotation. -/
def nearlySpread : State :=
  { times := [4, 4, 4, 4, 3, 0, 0, 0], runs := 19, prev_fails := 2, total_runs := 3,
    run_time_dsp := 57, run_time_classification := 19 }

/-- The verdict of that third window once label 4 wins its 20th run. -/
def spreadVerdict : Verdict :=
  { counts := [4, 4, 4, 4, 4, 0, 0, 0], entries_over_min := 0, entries_over_err := 0,
    max_id := 0, max_val := 4, max_dup := 5, good_pass := false, bad_pass := false,
    high_fail := true, single_fail := false, run_time_dsp := 60,
    run_time_classification := 20, outcome := [Outcome.NoWinner] }

/-- The verdict of the window of an 8-label model, fresh from start, in which
label 0 wins 10 runs and labels 1 and 2 win 5 each. -/
def splitVerdict : Verdict :=
  { counts := [10, 5, 5, 0, 0, 0, 0, 0], entries_over_min := 1, entries_over_err := 3,
    max_id := 0, max_val := 10, max_dup := 1, good_pass := false, bad_pass := false,
    high_fail := false, single_fail := true, run_time_dsp := 60,
    run_time_classification := 20, outcome := [Outcome.Ambiguous] }

/-- A window of 20 runs of an 8-label model that labels 7 and 1 win in turn. -/
def alternatingWindow : List ImpulseResult :=
  (List.range 20).map (fun k => oneHot 8 (if k % 2 = 0 then 7 else 1))

/-- A classification result with score 5 at label `i` and 2 elsewhere, with
other timings than `oneHot`. -/
def peaked (L i : Nat) : ImpulseResult :=
  { classification := (List.range L).map (fun j => if j = i then 5 else 2),
    timing_dsp := 5, timing_classification := 2 }

/-- A window-boundary state of an 8-label model later in the run than
`initState 8`. -/
def laterBoundary : State :=
  { times := List.replicate 8 0, runs := 0, prev_fails := 2, total_runs := 7,
    run_time_dsp := 0, run_time_classification := 0 }

/-- A window of 20 runs of an 8-label model that labels 5 and 2 win in turn. -/
def tieWindow : List ImpulseResult :=
  (List.range 20).map (fun k => oneHot 8 (if k % 2 = 0 then 5 else 2))

/-- The verdict of `tieWindow` from program start. -/
def tieVerdict : Verdict :=
  { counts := [0, 0, 10, 0, 0, 10, 0, 0], entries_over_min := 2, entries_over_err := 2,
    max_id := 2, max_val := 10, max_dup := 2, good_pass := false, bad_pass := true,
    high_fail := false, single_fail := false, run_time_dsp := 60,
    run_time_classification := 20, outcome := [Outcome.BadFrequency] }

/-- A window of 20 runs of an 8-label model with `n0`, `n1`, `n2`, `n3` wins
for labels 0, 1, 2, 3. -/
def blockWindow (n0 n1 n2 n3 : Nat) : List ImpulseResult :=
  List.replicate n0 (oneHot 8 0) ++ List.replicate n1 (oneHot 8 1) ++
    List.replicate n2 (oneHot 8 2) ++ List.replicate n3 (oneHot 8 3)

/-- The verdict of `blockWindow 10 5 4 1` from program start. -/
def onThresholdVerdict : Verdict :=
  { counts := [10, 5, 4, 1, 0, 0, 0, 0], entries_over_min := 1, entries_over_err := 2,
    max_id := 0, max_val := 10, max_dup := 1, good_pass := false, bad_pass := true,
    high_fail := false, single_fail := false, run_time_dsp := 60,
    run_time_classification := 20, outcome := [Outcome.BadFrequency] }

/-- The verdict of `blockWindow 9 5 4 2` from program start. -/
def underThresholdVerdict : Verdict :=
  { counts := [9, 5, 4, 2, 0, 0, 0, 0], entries_over_min := 0, entries_over_err := 2,
    max_id := 0, max_val := 9, max_dup := 1, good_pass := false, bad_pass := false,
    high_fail := false, single_fail := true, run_time_dsp := 60,
    run_time_classification := 20, outcome := [Outcome.NoWinner] }

/-- The verdicts among the return values of a sequence of calls. -/
def verdicts (outs : List (Option Verdict)) : List Verdict :=
  outs.filterMap id

/-! ## Frame acquisition (lines 42-56 and 104-135) -/

/-- The three accelerometer axes, in the order of the `accel` array. -/
inductive Axis where
  | X
  | Y
  | Z
deriving DecidableEq, Repr

/-- Build configuration: which of `CONFIG_APP_AXIS_X_ENABLED`,
`CONFIG_APP_AXIS_Y_ENABLED`, `CONFIG_APP_AXIS_Z_ENABLED` are defined. -/
structure AxisConfig where
  x : Bool
  y : Bool
  z : Bool
deriving DecidableEq, Repr

/-- Lines 42-52: `AXIS_ENABLED`; with no axis enabled the build stops at
`#error`, which is the value 0 here.  Line 54 makes the build fail unless
`EI_CLASSIFIER_RAW_SAMPLES_PER_FRAME` equals it, so it is also the stride of
the acquisition loop. -/
def AXIS_ENABLED (c : AxisConfig) : Nat :=
  if c.x && c.y && c.z then 3
  else if (!c.x && c.y && c.z) || (c.x && !c.y && c.z) || (c.x && c.y && !c.z) then 2
  else if c.x || c.y || c.z then 1
  else 0

/-- One reading of the sensor: the values that `sensor_value_to_double` gives
for `accel[0]`, `accel[1]`, `accel[2]`, as stored in a `float` slot. -/
structure Sample where
  x : ℚ
  y : ℚ
  z : ℚ

/-- The value of one axis of a reading. -/
def Sample.axis (a : Sample) : Axis → ℚ
  | Axis.X => a.x
  | Axis.Y => a.y
  | Axis.Z => a.z

/-- The `features` buffer together with a log of the stores made into it:
the slot and the axis of each, oldest first. -/
structure Frame where
  features : List ℚ
  written : List (Nat × Axis)

/-- The store `features[current_index] = sensor_value_to_double(&accel[k])`. -/
def Frame.store (b : Frame) (current_index : Nat) (a : Sample) (ax : Axis) : Frame :=
  { features := b.features.set current_index (a.axis ax),
    written := b.written ++ [(current_index, ax)] }

/-- Lines 117-129: move one reading into the buffer from slot `ix` on. -/
def storeSample (c : AxisConfig) (a : Sample) (ix : Nat) (b : Frame) : Frame :=
  let current_index := ix
  let b1 := if c.x then b.store current_index a Axis.X else b
  let current_index1 := if c.x then current_index + 1 else current_index
  let b2 := if c.y then b1.store current_index1 a Axis.Y else b1
  let current_index2 := if c.y then current_index1 + 1 else current_index1
  if c.z then b2.store current_index2 a Axis.Z else b2

/-- How a frame acquisition ends. -/
inductive Acquired where
  /-- the loop ran to its end -/
  | frame (b : Frame)
  /-- `sensor_sample_fetch` failed: "IIS2DLPC Sensor sample update error" -/
  | sensorError
  /-- the model ran out of iterations -/
  | outOfFuel

/-- The loop of lines 104-135 from slot `ix` on, for a frame of `N` slots;
`fetch t` is the outcome of the `t`-th call of `sensor_sample_fetch` and
`sensor_channel_get` (`none` for a negative return code).  The waits on the
timer are not part of the model. -/
def acquireLoop (c : AxisConfig) (N : Nat) (fetch : Nat → Option Sample) :
    Nat → Nat → Nat → Frame → Acquired
  | 0, ix, _, b => if ix < N then Acquired.outOfFuel else Acquired.frame b
  | fuel + 1, ix, t, b =>
    if ix < N then
      match fetch t with
      | none => Acquired.sensorError
      | some a => acquireLoop c N fetch fuel (ix + AXIS_ENABLED c) (t + 1) (storeSample c a ix b)
    else Acquired.frame b

/-- One frame acquisition into the buffer `features`, starting at the
`t0`-th reading of the sensor. -/
def acquireFrame (c : AxisConfig) (N : Nat) (fetch : Nat → Option Sample)
    (features : List ℚ) : Acquired :=
  acquireLoop c N fetch N 0 0 { features := features, written := [] }

/-- The enabled axes in the fixed order X, Y, Z. -/
def enabledAxes (c : AxisConfig) : List Axis :=
  (if c.x then [Axis.X] else []) ++ (if c.y then [Axis.Y] else []) ++
    (if c.z then [Axis.Z] else [])

/-- Build with the X and Z axes enabled. -/
def axesXZ : AxisConfig := { x := true, y := false, z := true }

/-- The `t`-th reading of a sensor whose axes read `t`, `t + 10`, `t + 20`. -/
def rampSample (t : Nat) : Sample :=
  { x := (t : Nat), y := ((t + 10 : Nat) : ℚ), z := ((t + 20 : Nat) : ℚ) }

/-- A sensor that never fails and delivers `rampSample`. -/
def rampSensor (t : Nat) : Option Sample := some (rampSample t)

/-- The content of the buffer after an acquisition, empty if it did not end
with a frame. -/
def Acquired.features : Acquired → List ℚ
  | Acquired.frame b => b.features
  | _ => []

/-! ## Sample period (lines 61-62) -/

/-- Line 62: `time_between_samples_us = 1000000 / (sampling_freq - 1)` on
`int64_t`, with the truncating division of C.  `sampling_freq` is the
`int64_t` copy of `EI_CLASSIFIER_FREQUENCY`, a constant of the generated
header; at `sampling_freq = 1` the source divides by zero. -/
def time_between_samples_us (sampling_freq : Int) : Int :=
  Int.tdiv 1000000 (sampling_freq - 1)

/-! ## Windows -/

/-- The state after counting the runs `rs` one after the other, without any
resolution in between (lines 160-163 only). -/
def accumulateAll (s : State) (rs : List ImpulseResult) : State :=
  rs.foldl accumulate s

/-- The winning label of each run of a sequence. -/
def winners (rs : List ImpulseResult) : List Nat :=
  rs.map largestIndex

/-- What holds of the state between two calls, for a model with `L` labels. -/
structure WindowInv (L : Nat) (s : State) : Prop where
  length : s.times.length = L
  sum : s.times.sum = s.runs
  runs : s.runs < CHECK_BUCKETS
  low : ∀ i, 256 ≤ i → s.times.getD i 0 = 0

/-! ## Descriptions of the resolution branches -/

/-- What the two failure branches (lines 217-248) produce from a streak `pf`. -/
structure FailureBranch (pf : Nat) (sv : State × Verdict) (o : Outcome) : Prop where
  outcome : sv.2.outcome = [o]
  prev_fails : sv.1.prev_fails = (pf + 1) % 256
  high_fail : sv.2.high_fail = true ↔ ERR_FAILS_IN_ROW ≤ (pf + 1) % 256
  single_fail : sv.2.single_fail = true ↔ (pf + 1) % 256 < ERR_FAILS_IN_ROW
  good_pass : sv.2.good_pass = false
  bad_pass : sv.2.bad_pass = false

/-- What the frequency-determined branch (lines 249-273) produces from a
streak `pf`. -/
structure WinnerBranch (pf : Nat) (sv : State × Verdict) (o : Outcome) (good bad : Bool) :
    Prop where
  outcome : sv.2.outcome = [o]
  prev_fails : sv.1.prev_fails = pf
  high_fail : sv.2.high_fail = false
  single_fail : sv.2.single_fail = false
  good_pass : sv.2.good_pass = good
  bad_pass : sv.2.bad_pass = bad

/-! ## Basic facts about one pass -/

theorem accumulate_runs (s : State) (r : ImpulseResult) :
    (accumulate s r).runs = (s.runs + 1) % 256 := rfl

theorem accumulate_prev_fails (s : State) (r : ImpulseResult) :
    (accumulate s r).prev_fails = s.prev_fails := rfl

theorem accumulate_total_runs (s : State) (r : ImpulseResult) :
    (accumulate s r).total_runs = s.total_runs := rfl

theorem record_of_lt (s : State) (r : ImpulseResult)
    (h : (accumulate s r).runs < CHECK_BUCKETS) :
    record s r = (accumulate s r, none) := by
  simp [record, Nat.not_le.mpr h]

theorem record_of_ge (s : State) (r : ImpulseResult)
    (h : CHECK_BUCKETS ≤ (accumulate s r).runs) :
    record s r = ((resolve (accumulate s r)).1, some (resolve (accumulate s r)).2) := by
  simp [record, h]

theorem resolve_runs (s : State) : (resolve s).1.runs = 0 := by
  unfold resolve
  simp only
  split_ifs <;> rfl

theorem record_runs_of_lt (s : State) (r : ImpulseResult) (h : s.runs < CHECK_BUCKETS) :
    (record s r).1.runs = (s.runs + 1) % CHECK_BUCKETS ∧
    ((record s r).2.isSome ↔ s.runs + 1 = CHECK_BUCKETS) := by
  have h20 : s.runs < 20 := h
  have h256 : (s.runs + 1) % 256 = s.runs + 1 := Nat.mod_eq_of_lt (by omega)
  by_cases hlt : s.runs + 1 < 20
  · have h1 : (accumulate s r).runs < CHECK_BUCKETS := by
      rw [accumulate_runs, h256]; exact hlt
    rw [record_of_lt s r h1]
    have hne : s.runs + 1 ≠ CHECK_BUCKETS := Nat.ne_of_lt hlt
    have hmod : (s.runs + 1) % CHECK_BUCKETS = s.runs + 1 := Nat.mod_eq_of_lt hlt
    simp [accumulate_runs, h256, hmod, hne]
  · have heq : s.runs + 1 = CHECK_BUCKETS := by
      show s.runs + 1 = 20
      omega
    have h1 : CHECK_BUCKETS ≤ (accumulate s r).runs := by
      rw [accumulate_runs, h256, heq]
    rw [record_of_ge s r h1]
    simp [resolve_runs, heq]

theorem recordAll_length (rs : List ImpulseResult) :
    ∀ s : State, (recordAll s rs).2.length = rs.length := by
  induction rs with
  | nil => intro s; rfl
  | cons r rs ih => intro s; simp [recordAll, ih]

theorem recordAll_isSome_iff (rs : List ImpulseResult) :
    ∀ s : State, s.runs < CHECK_BUCKETS → ∀ k, k < rs.length →
      (((recordAll s rs).2.getD k none).isSome ↔ CHECK_BUCKETS ∣ s.runs + k + 1) := by
  induction rs with
  | nil => intro s _ k hk; simp at hk
  | cons r rs ih =>
    intro s hs k hk
    obtain ⟨hruns, hsome⟩ := record_runs_of_lt s r hs
    cases k with
    | zero =>
      simp only [recordAll, List.getD_cons_zero, hsome, Nat.add_zero]
      constructor
      · intro h; rw [h]
      · intro h
        have := Nat.le_of_dvd (Nat.succ_pos _) h
        omega
    | succ k =>
      have hk1 : k < rs.length := by simpa using hk
      have hlt : (record s r).1.runs < CHECK_BUCKETS := by
        rw [hruns]; exact Nat.mod_lt _ (by decide)
      simp only [recordAll, List.getD_cons_succ]
      rw [ih (record s r).1 hlt k hk1, hruns]
      have e : s.runs + (k + 1) + 1 = (s.runs + 1) + k + 1 := by omega
      rw [e, Nat.dvd_iff_mod_eq_zero, Nat.dvd_iff_mod_eq_zero]
      have e2 : ((s.runs + 1) % CHECK_BUCKETS + k + 1) % CHECK_BUCKETS
          = (s.runs + 1 + k + 1) % CHECK_BUCKETS := by
        simp only [CHECK_BUCKETS]
        omega
      rw [e2]

theorem incrAt_length (ts : List Nat) : ∀ i, (incrAt ts i).length = ts.length := by
  induction ts with
  | nil => intro i; rfl
  | cons t ts ih =>
    intro i
    cases i with
    | zero => rfl
    | succ i => simp [incrAt, ih]

theorem accumulate_times_length (s : State) (r : ImpulseResult) :
    (accumulate s r).times.length = s.times.length :=
  incrAt_length s.times (largestIndex r)

/-! ## The resolution branches -/

theorem goodLoop_good_points (m : Nat) :
    ((goodLoop good_points m 0).1 = true ↔ m ∈ good_points) ∧
    ((goodLoop good_points m 0).2 = good_points.length ↔ m ∉ good_points) := by
  simp only [good_points, goodLoop, List.length_cons, List.length_nil, List.mem_cons,
    List.mem_singleton, List.not_mem_nil, or_false]
  split_ifs
  all_goals simp_all
  all_goals omega

theorem resolve_scan (s : State) :
    (resolve s).2.counts = s.times ∧
    (resolve s).2.entries_over_min = (scanTimes s.times).entries_over_min ∧
    (resolve s).2.entries_over_err = (scanTimes s.times).entries_over_err ∧
    (resolve s).2.max_id = (scanTimes s.times).max_id ∧
    (resolve s).2.max_val = (scanTimes s.times).max_val ∧
    (resolve s).2.max_dup = (scanTimes s.times).max_dup ∧
    (resolve s).2.run_time_dsp = s.run_time_dsp ∧
    (resolve s).2.run_time_classification = s.run_time_classification := by
  unfold resolve
  simp only
  split_ifs <;> exact ⟨rfl, rfl, rfl, rfl, rfl, rfl, rfl, rfl⟩

theorem resolve_reset (s : State) :
    (resolve s).1.times = List.replicate s.times.length 0 ∧
    (resolve s).1.runs = 0 ∧
    (resolve s).1.run_time_dsp = 0 ∧
    (resolve s).1.run_time_classification = 0 ∧
    (resolve s).1.total_runs = (s.total_runs + 1) % 4294967296 := by
  unfold resolve
  simp only
  split_ifs <;> exact ⟨rfl, rfl, rfl, rfl, rfl⟩

theorem resolve_noWinner (s : State) (h : (scanTimes s.times).entries_over_min = 0) :
    FailureBranch s.prev_fails (resolve s) Outcome.NoWinner := by
  unfold resolve
  simp only [h, if_true]
  split_ifs with h1
  · exact ⟨rfl, rfl, by simpa using h1, by simpa using h1, rfl, rfl⟩
  · exact ⟨rfl, rfl, by simpa using h1, by simpa using h1, rfl, rfl⟩

theorem resolve_ambiguous (s : State) (h : (scanTimes s.times).entries_over_min ≠ 0)
    (h2 : ERR_BUCKETS_FAIL_COUNT ≤ (scanTimes s.times).entries_over_err) :
    FailureBranch s.prev_fails (resolve s) Outcome.Ambiguous := by
  unfold resolve
  simp only [h, if_false, ge_iff_le, h2, if_true]
  split_ifs with h1
  · exact ⟨rfl, rfl, by simpa using h1, by simpa using h1, rfl, rfl⟩
  · exact ⟨rfl, rfl, by simpa using h1, by simpa using h1, rfl, rfl⟩

theorem resolve_good (s : State) (h : (scanTimes s.times).entries_over_min ≠ 0)
    (h2 : (scanTimes s.times).entries_over_err < ERR_BUCKETS_FAIL_COUNT)
    (h3 : (scanTimes s.times).max_id ∈ good_points) :
    WinnerBranch s.prev_fails (resolve s) Outcome.GoodFrequency true false := by
  obtain ⟨hg, hb⟩ := goodLoop_good_points (scanTimes s.times).max_id
  have hg1 := hg.mpr h3
  have hb1 : ¬ (goodLoop good_points (scanTimes s.times).max_id 0).2 = good_points.length :=
    fun e => (hb.mp e) h3
  unfold resolve
  simp only [h, if_false, ge_iff_le, Nat.not_le.mpr h2, hg1, if_true, hb1]
  exact ⟨rfl, rfl, rfl, rfl, rfl, rfl⟩

theorem resolve_bad (s : State) (h : (scanTimes s.times).entries_over_min ≠ 0)
    (h2 : (scanTimes s.times).entries_over_err < ERR_BUCKETS_FAIL_COUNT)
    (h3 : (scanTimes s.times).max_id ∉ good_points) :
    WinnerBranch s.prev_fails (resolve s) Outcome.BadFrequency false true := by
  obtain ⟨hg, hb⟩ := goodLoop_good_points (scanTimes s.times).max_id
  have hg1 : (goodLoop good_points (scanTimes s.times).max_id 0).1 = false := by
    cases e : (goodLoop good_points (scanTimes s.times).max_id 0).1
    · rfl
    · exact absurd (hg.mp e) h3
  have hb1 := hb.mpr h3
  unfold resolve
  simp only [h, if_false, ge_iff_le, Nat.not_le.mpr h2, hg1, hb1, if_true]
  exact ⟨rfl, rfl, rfl, rfl, rfl, rfl⟩

theorem resolve_cases (s : State) :
    ((scanTimes s.times).entries_over_min = 0 ∧
      FailureBranch s.prev_fails (resolve s) Outcome.NoWinner) ∨
    ((scanTimes s.times).entries_over_min ≠ 0 ∧
      ERR_BUCKETS_FAIL_COUNT ≤ (scanTimes s.times).entries_over_err ∧
      FailureBranch s.prev_fails (resolve s) Outcome.Ambiguous) ∨
    ((scanTimes s.times).entries_over_min ≠ 0 ∧
      (scanTimes s.times).entries_over_err < ERR_BUCKETS_FAIL_COUNT ∧
      (scanTimes s.times).max_id ∈ good_points ∧
      WinnerBranch s.prev_fails (resolve s) Outcome.GoodFrequency true false) ∨
    ((scanTimes s.times).entries_over_min ≠ 0 ∧
      (scanTimes s.times).entries_over_err < ERR_BUCKETS_FAIL_COUNT ∧
      (scanTimes s.times).max_id ∉ good_points ∧
      WinnerBranch s.prev_fails (resolve s) Outcome.BadFrequency false true) := by
  by_cases h : (scanTimes s.times).entries_over_min = 0
  · exact Or.inl ⟨h, resolve_noWinner s h⟩
  · by_cases h2 : ERR_BUCKETS_FAIL_COUNT ≤ (scanTimes s.times).entries_over_err
    · exact Or.inr (Or.inl ⟨h, h2, resolve_ambiguous s h h2⟩)
    · have h2' := Nat.not_le.mp h2
      by_cases h3 : (scanTimes s.times).max_id ∈ good_points
      · exact Or.inr (Or.inr (Or.inl ⟨h, h2', h3, resolve_good s h h2' h3⟩))
      · exact Or.inr (Or.inr (Or.inr ⟨h, h2', h3, resolve_bad s h h2' h3⟩))

theorem record_some (s : State) (r : ImpulseResult) (v : Verdict)
    (h : (record s r).2 = some v) :
    CHECK_BUCKETS ≤ (accumulate s r).runs ∧
    (record s r).1 = (resolve (accumulate s r)).1 ∧ v = (resolve (accumulate s r)).2 := by
  by_cases hge : CHECK_BUCKETS ≤ (accumulate s r).runs
  · rw [record_of_ge s r hge] at h ⊢
    exact ⟨hge, rfl, (Option.some.inj h).symm⟩
  · rw [record_of_lt s r (Nat.not_le.mp hge)] at h
    cases h

theorem record_none (s : State) (r : ImpulseResult) (h : (record s r).2 = none) :
    (accumulate s r).runs < CHECK_BUCKETS ∧ (record s r).1 = accumulate s r := by
  by_cases hge : CHECK_BUCKETS ≤ (accumulate s r).runs
  · rw [record_of_ge s r hge] at h
    cases h
  · rw [record_of_lt s r (Nat.not_le.mp hge)]
    exact ⟨Nat.not_le.mp hge, rfl⟩

/-! ## C1: a verdict exactly on every twentieth call -/

/-- C1: starting from a state with `runs = 0`, for every sequence of
classification results there is one return value per call, the call of ordinal
`k + 1` returns a verdict exactly when `k + 1` is a multiple of
`CHECK_BUCKETS = 20`; in particular the first 19 calls return nothing and the
20th returns a verdict. -/
theorem verdict_exactly_on_multiples_of_window (s : State) (rs : List ImpulseResult)
    (hs : s.runs = 0) :
    CHECK_BUCKETS = 20 ∧
    (recordAll s rs).2.length = rs.length ∧
    (∀ k, k < rs.length →
      (((recordAll s rs).2.getD k none).isSome ↔ CHECK_BUCKETS ∣ k + 1)) ∧
    (∀ k, k < rs.length → k + 1 < CHECK_BUCKETS → (recordAll s rs).2.getD k none = none) ∧
    (CHECK_BUCKETS ≤ rs.length →
      ((recordAll s rs).2.getD (CHECK_BUCKETS - 1) none).isSome) := by
  have hlt : s.runs < CHECK_BUCKETS := by rw [hs]; decide
  have key : ∀ k, k < rs.length →
      (((recordAll s rs).2.getD k none).isSome ↔ CHECK_BUCKETS ∣ k + 1) := by
    intro k hk
    have := recordAll_isSome_iff rs s hlt k hk
    rwa [hs, Nat.zero_add] at this
  refine ⟨rfl, recordAll_length rs s, key, ?_, ?_⟩
  · intro k hk hk20
    have h1 : ¬ CHECK_BUCKETS ∣ k + 1 := by
      intro h
      have := Nat.le_of_dvd (Nat.succ_pos _) h
      omega
    have h2 := (key k hk).not.mpr h1
    simpa using h2
  · intro hlen
    have hk : CHECK_BUCKETS - 1 < rs.length := by
      simp only [CHECK_BUCKETS] at hlen ⊢
      omega
    exact (key _ hk).mpr (by decide)

theorem record_outcome (s : State) (r : ImpulseResult) (v : Verdict)
    (h : (record s r).2 = some v) :
    v.outcome = [Outcome.NoWinner] ∨ v.outcome = [Outcome.Ambiguous] ∨
    v.outcome = [Outcome.GoodFrequency] ∨ v.outcome = [Outcome.BadFrequency] := by
  obtain ⟨_, _, hv⟩ := record_some s r v h
  rw [hv]
  rcases resolve_cases (accumulate s r) with ⟨_, b⟩ | ⟨_, _, b⟩ | ⟨_, _, _, b⟩ | ⟨_, _, _, b⟩
  · exact Or.inl b.outcome
  · exact Or.inr (Or.inl b.outcome)
  · exact Or.inr (Or.inr (Or.inl b.outcome))
  · exact Or.inr (Or.inr (Or.inr b.outcome))

/-- The narrative line of a verdict in terms of the four flags of the
delimited report. -/
theorem record_flags (s : State) (r : ImpulseResult) (v : Verdict)
    (h : (record s r).2 = some v) :
    (v.good_pass = true ↔ v.outcome = [Outcome.GoodFrequency]) ∧
    (v.bad_pass = true ↔ v.outcome = [Outcome.BadFrequency]) ∧
    ((v.high_fail = true ∨ v.single_fail = true) ↔
      (v.outcome = [Outcome.NoWinner] ∨ v.outcome = [Outcome.Ambiguous])) := by
  obtain ⟨_, _, hv⟩ := record_some s r v h
  rw [hv]
  rcases resolve_cases (accumulate s r) with ⟨_, b⟩ | ⟨_, _, b⟩ | ⟨_, _, _, b⟩ | ⟨_, _, _, b⟩
  · have hf : (resolve (accumulate s r)).2.high_fail = true ∨
        (resolve (accumulate s r)).2.single_fail = true := by
      rcases Nat.lt_or_ge (((accumulate s r).prev_fails + 1) % 256) ERR_FAILS_IN_ROW with c | c
      · exact Or.inr (b.single_fail.mpr c)
      · exact Or.inl (b.high_fail.mpr c)
    simp [b.outcome, b.good_pass, b.bad_pass, hf]
  · have hf : (resolve (accumulate s r)).2.high_fail = true ∨
        (resolve (accumulate s r)).2.single_fail = true := by
      rcases Nat.lt_or_ge (((accumulate s r).prev_fails + 1) % 256) ERR_FAILS_IN_ROW with c | c
      · exact Or.inr (b.single_fail.mpr c)
      · exact Or.inl (b.high_fail.mpr c)
    simp [b.outcome, b.good_pass, b.bad_pass, hf]
  · simp [b.outcome, b.good_pass, b.bad_pass, b.high_fail, b.single_fail]
  · simp [b.outcome, b.good_pass, b.bad_pass, b.high_fail, b.single_fail]

/-! ## C2: the ordered resolution policy -/

/-- C2: for every call of `record` that completes a window, the base verdict
is one of the four narrative lines (GoodFrequency going with `good_pass` and
BadFrequency with `bad_pass`); it is NoWinner iff `entries_over_min = 0`;
Ambiguous iff `entries_over_min > 0` and `entries_over_err >= 3`; and otherwise
GoodFrequency iff `max_id` is one of 1, 3, 4, 5, 6 and BadFrequency iff it is
not. -/
theorem base_verdict_follows_policy (s : State) (r : ImpulseResult) (v : Verdict)
    (h : (record s r).2 = some v) :
    (v.outcome = [Outcome.NoWinner] ∨ v.outcome = [Outcome.Ambiguous] ∨
      v.outcome = [Outcome.GoodFrequency] ∨ v.outcome = [Outcome.BadFrequency]) ∧
    (v.good_pass = true ↔ v.outcome = [Outcome.GoodFrequency]) ∧
    (v.bad_pass = true ↔ v.outcome = [Outcome.BadFrequency]) ∧
    (v.outcome = [Outcome.NoWinner] ↔ v.entries_over_min = 0) ∧
    (v.outcome = [Outcome.Ambiguous] ↔ 0 < v.entries_over_min ∧ 3 ≤ v.entries_over_err) ∧
    (v.outcome = [Outcome.GoodFrequency] ↔
      0 < v.entries_over_min ∧ v.entries_over_err < 3 ∧ v.max_id ∈ [1, 3, 4, 5, 6]) ∧
    (v.outcome = [Outcome.BadFrequency] ↔
      0 < v.entries_over_min ∧ v.entries_over_err < 3 ∧ v.max_id ∉ [1, 3, 4, 5, 6]) := by
  refine ⟨record_outcome s r v h, (record_flags s r v h).1, (record_flags s r v h).2.1, ?_⟩
  obtain ⟨_, _, hv⟩ := record_some s r v h
  obtain ⟨_, hmin, herr, hid, _⟩ := resolve_scan (accumulate s r)
  rw [← hv] at hmin herr hid
  have hgp : good_points = [1, 3, 4, 5, 6] := rfl
  have hfc : ERR_BUCKETS_FAIL_COUNT = 3 := rfl
  rw [← hgp]
  rcases resolve_cases (accumulate s r) with ⟨c1, b⟩ | ⟨c1, c2, b⟩ | ⟨c1, c2, c3, b⟩ |
      ⟨c1, c2, c3, b⟩
  all_goals
    have ho := b.outcome
    rw [← hv] at ho
    rw [← hmin] at c1
    try rw [← herr, hfc] at c2
    try rw [← hid] at c3
    rw [ho]
    simp only [List.cons.injEq, and_true, reduceCtorEq, false_iff, true_iff, not_and]
    first
      | omega
      | exact ⟨by omega, by omega, ⟨by omega, by omega, c3⟩, fun _ _ => not_not.mpr c3⟩
      | exact ⟨by omega, by omega, fun _ _ => c3, by omega, by omega, c3⟩


/-! ## C4, C5, C10: the failure streak -/

theorem record_winner_prev_fails (s : State) (r : ImpulseResult) (v : Verdict)
    (h : (record s r).2 = some v)
    (ho : v.outcome = [Outcome.GoodFrequency] ∨ v.outcome = [Outcome.BadFrequency]) :
    (record s r).1.prev_fails = s.prev_fails ∧ v.high_fail = false := by
  obtain ⟨_, hs, hv⟩ := record_some s r v h
  rw [hs]
  rcases resolve_cases (accumulate s r) with ⟨_, b⟩ | ⟨_, _, b⟩ | ⟨_, _, _, b⟩ | ⟨_, _, _, b⟩
  all_goals
    have hb := b.outcome
    rw [← hv] at hb
    first
      | (rw [hb] at ho; simp at ho; done)
      | exact ⟨b.prev_fails, by rw [hv]; exact b.high_fail⟩

theorem record_failure_prev_fails (s : State) (r : ImpulseResult) (v : Verdict)
    (h : (record s r).2 = some v)
    (ho : v.outcome = [Outcome.NoWinner] ∨ v.outcome = [Outcome.Ambiguous]) :
    (record s r).1.prev_fails = (s.prev_fails + 1) % 256 ∧
    (v.high_fail = true ↔ ERR_FAILS_IN_ROW ≤ (s.prev_fails + 1) % 256) := by
  obtain ⟨_, hs, hv⟩ := record_some s r v h
  rw [hs]
  rcases resolve_cases (accumulate s r) with ⟨_, b⟩ | ⟨_, _, b⟩ | ⟨_, _, _, b⟩ | ⟨_, _, _, b⟩
  all_goals
    have hb := b.outcome
    rw [← hv] at hb
    first
      | (rw [hb] at ho; simp at ho; done)
      | exact ⟨b.prev_fails, by rw [hv]; exact b.high_fail⟩

set_option maxRecDepth 100000 in
/-- C4 (the code departs from the claim): after three consecutive NoWinner
windows, which bring `prev_fails` to 3, a window that label 1 wins 20 times
out of 20 resolves as GoodFrequency and leaves `prev_fails` at 3, not 0: the
frequency-determined branch never writes `prev_fails`. -/
theorem clear_winner_keeps_prev_fails :
    (recordAll (initState 8) (spreadWindow ++ spreadWindow ++ spreadWindow)).1.prev_fails = 3 ∧
    (verdicts (recordAll (initState 8)
      (spreadWindow ++ spreadWindow ++ spreadWindow ++ unanimousWindow 1)).2).map
        Verdict.outcome
      = [[Outcome.NoWinner], [Outcome.NoWinner], [Outcome.NoWinner], [Outcome.GoodFrequency]] ∧
    (recordAll (initState 8)
      (spreadWindow ++ spreadWindow ++ spreadWindow ++ unanimousWindow 1)).1.prev_fails = 3 := by
  decide

/-- C5: on every call that completes a window, if the window resolves as
NoWinner or Ambiguous then `high_fail` is set iff `prev_fails`, after that
window's increment, is at least `ERR_FAILS_IN_ROW = 3`; if it resolves as
GoodFrequency or BadFrequency then `high_fail` is not set. -/
theorem high_fail_iff_streak_reached (s : State) (r : ImpulseResult) (v : Verdict)
    (h : (record s r).2 = some v) :
    ERR_FAILS_IN_ROW = 3 ∧
    ((v.outcome = [Outcome.NoWinner] ∨ v.outcome = [Outcome.Ambiguous]) →
      (record s r).1.prev_fails = (s.prev_fails + 1) % 256 ∧
      (v.high_fail = true ↔ 3 ≤ (record s r).1.prev_fails)) ∧
    ((v.outcome = [Outcome.GoodFrequency] ∨ v.outcome = [Outcome.BadFrequency]) →
      v.high_fail = false) := by
  refine ⟨rfl, ?_, ?_⟩
  · intro ho
    obtain ⟨h1, h2⟩ := record_failure_prev_fails s r v h ho
    refine ⟨h1, ?_⟩
    rw [h1]
    exact h2
  · intro ho
    exact (record_winner_prev_fails s r v h ho).2

theorem verdicts_cons_some (v : Verdict) (outs : List (Option Verdict)) :
    verdicts (some v :: outs) = v :: verdicts outs := by
  simp [verdicts]

theorem verdicts_cons_none (outs : List (Option Verdict)) :
    verdicts (none :: outs) = verdicts outs := by
  simp [verdicts]

/-- Along any sequence of calls `prev_fails` advances by one (modulo 256) per
verdict, less the clear-winner verdicts, which leave it alone. -/
theorem recordAll_prev_fails (rs : List ImpulseResult) :
    ∀ s : State, s.prev_fails < 256 →
      (recordAll s rs).1.prev_fails =
        (s.prev_fails + (verdicts (recordAll s rs).2).countP
          (fun v => decide (v.outcome = [Outcome.NoWinner] ∨ v.outcome = [Outcome.Ambiguous])))
          % 256 := by
  induction rs with
  | nil =>
    intro s hs
    simp [recordAll, verdicts, Nat.mod_eq_of_lt hs]
  | cons r rs ih =>
    intro s hs
    cases hv : (record s r).2 with
    | none =>
      have hpf : (record s r).1.prev_fails = s.prev_fails := by
        rw [(record_none s r hv).2, accumulate_prev_fails]
      simp only [recordAll, hv, verdicts_cons_none]
      rw [ih (record s r).1 (by rw [hpf]; exact hs), hpf]
    | some v =>
      simp only [recordAll, hv, verdicts_cons_some]
      rcases record_outcome s r v hv with ho | ho | ho | ho
      · have h1 := (record_failure_prev_fails s r v hv (Or.inl ho)).1
        rw [ih (record s r).1 (by rw [h1]; exact Nat.mod_lt _ (by decide)), h1]
        simp only [List.countP_cons, ho, true_or, decide_True, if_true]
        omega
      · have h1 := (record_failure_prev_fails s r v hv (Or.inr ho)).1
        rw [ih (record s r).1 (by rw [h1]; exact Nat.mod_lt _ (by decide)), h1]
        simp only [List.countP_cons, ho, or_true, decide_True, if_true]
        omega
      · have h1 := (record_winner_prev_fails s r v hv (Or.inl ho)).1
        rw [ih (record s r).1 (by rw [h1]; exact hs), h1]
        simp [List.countP_cons, ho]
      · have h1 := (record_winner_prev_fails s r v hv (Or.inr ho)).1
        rw [ih (record s r).1 (by rw [h1]; exact hs), h1]
        simp [List.countP_cons, ho]

/-! ## C9: the reset that follows a verdict -/

/-- C9: after every call of `record` that returns a verdict, every entry of
`times` is 0 (the array keeps its length), `runs` is 0, both accumulated
timing sums are 0, and `total_runs` is one more than before modulo 2^32. -/
theorem verdict_call_resets_window (s : State) (r : ImpulseResult) (v : Verdict)
    (h : (record s r).2 = some v) :
    (∀ t ∈ (record s r).1.times, t = 0) ∧
    (record s r).1.times.length = s.times.length ∧
    (record s r).1.runs = 0 ∧
    (record s r).1.run_time_dsp = 0 ∧
    (record s r).1.run_time_classification = 0 ∧
    (record s r).1.total_runs = (s.total_runs + 1) % 2 ^ 32 := by
  obtain ⟨_, hs, _⟩ := record_some s r v h
  obtain ⟨ht, hr, hd, hc, hn⟩ := resolve_reset (accumulate s r)
  rw [hs]
  refine ⟨?_, ?_, hr, hd, hc, ?_⟩
  · intro t htm
    rw [ht] at htm
    exact (List.mem_replicate.mp htm).2
  · rw [ht, List.length_replicate, accumulate_times_length]
  · rw [hn, accumulate_total_runs]
    norm_num

/-! ## C10: the streak persists across windows -/

/-- C10: a call that does not complete a window leaves `prev_fails` unchanged;
a call that completes a window resolving as NoWinner or Ambiguous returns,
after the window reset, a state whose `prev_fails` is exactly one greater than
before when the prior value is below 255; and from `prev_fails = 0`, any
sequence of calls whose verdicts are NoWinner, Ambiguous, NoWinner in that
order ends with `prev_fails = 3`. -/
theorem streak_persists_across_windows (s : State) (r : ImpulseResult)
    (rs : List ImpulseResult) :
    ((record s r).2 = none → (record s r).1.prev_fails = s.prev_fails) ∧
    (∀ v, (record s r).2 = some v →
      (v.outcome = [Outcome.NoWinner] ∨ v.outcome = [Outcome.Ambiguous]) →
      s.prev_fails < 255 →
      (record s r).1.prev_fails = s.prev_fails + 1 ∧ (record s r).1.runs = 0) ∧
    (s.prev_fails = 0 →
      (verdicts (recordAll s rs).2).map Verdict.outcome
        = [[Outcome.NoWinner], [Outcome.Ambiguous], [Outcome.NoWinner]] →
      (recordAll s rs).1.prev_fails = 3) := by
  refine ⟨?_, ?_, ?_⟩
  · intro hn
    rw [(record_none s r hn).2, accumulate_prev_fails]
  · intro v hv ho hlt
    refine ⟨?_, ?_⟩
    · rw [(record_failure_prev_fails s r v hv ho).1]
      exact Nat.mod_eq_of_lt (by omega)
    · rw [(record_some s r v hv).2.1]
      exact resolve_runs _
  · intro h0 hvs
    rw [recordAll_prev_fails rs s (by omega), h0]
    generalize verdicts (recordAll s rs).2 = vs at hvs
    rcases vs with _ | ⟨v1, _ | ⟨v2, _ | ⟨v3, _ | ⟨v4, vs⟩⟩⟩⟩
    all_goals simp only [List.map_cons, List.map_nil, List.cons.injEq, and_true, and_false,
      reduceCtorEq] at hvs
    obtain ⟨e1, e2, e3⟩ := hvs
    simp [List.countP_cons, e1, e2, e3]

/-! ## C3: the winning label of one run -/

/-- The scan for the largest score from index `ix` on, with running maximum
`m0` held at `i0`: nothing changes when no score exceeds `m0`, otherwise the
result is the position of the first score that attains the overall maximum,
stored in a `uint8_t`. -/
theorem findLargest_spec (xs : List ℚ) : ∀ (ix : Nat) (m0 : ℚ) (i0 : Nat),
    ((∀ v ∈ xs, v ≤ m0) → findLargest xs ix m0 i0 = i0) ∧
    ((∃ v ∈ xs, m0 < v) → ∃ j, j < xs.length ∧ m0 < xs.getD j 0 ∧
      (∀ v ∈ xs, v ≤ xs.getD j 0) ∧ (∀ k, k < j → xs.getD k 0 < xs.getD j 0) ∧
      findLargest xs ix m0 i0 = (ix + j) % 256) := by
  induction xs with
  | nil =>
    intro ix m0 i0
    exact ⟨fun _ => rfl, fun ⟨v, hv, _⟩ => absurd hv (List.not_mem_nil v)⟩
  | cons x xs ih =>
    intro ix m0 i0
    by_cases hx : x > m0
    · have hstep : findLargest (x :: xs) ix m0 i0 = findLargest xs (ix + 1) x (ix % 256) := by
        simp [findLargest, hx]
      rw [hstep]
      refine ⟨fun hall => absurd (hall x (List.mem_cons_self x xs)) (not_le.mpr hx), fun _ => ?_⟩
      by_cases hex : ∃ v ∈ xs, x < v
      · obtain ⟨j, hj, hlt, hmax, hfirst, hres⟩ := (ih (ix + 1) x (ix % 256)).2 hex
        refine ⟨j + 1, by simpa using hj, ?_, ?_, ?_, ?_⟩
        · simpa using lt_trans hx hlt
        · intro v hv
          rcases List.mem_cons.mp hv with rfl | hv
          · simpa using le_of_lt hlt
          · simpa using hmax v hv
        · intro k hk
          cases k with
          | zero => simpa using hlt
          | succ k => simpa using hfirst k (by omega)
        · rw [hres]
          congr 1
          omega
      · have hall : ∀ v ∈ xs, v ≤ x := by
          intro v hv
          by_contra hcon
          exact hex ⟨v, hv, not_le.mp hcon⟩
        refine ⟨0, by simp, by simpa using hx, ?_, ?_, ?_⟩
        · intro v hv
          rcases List.mem_cons.mp hv with rfl | hv
          · simp
          · simpa using hall v hv
        · intro k hk
          omega
        · rw [(ih (ix + 1) x (ix % 256)).1 hall]
          rfl
    · have hstep : findLargest (x :: xs) ix m0 i0 = findLargest xs (ix + 1) m0 i0 := by
        simp [findLargest, hx]
      have hle : x ≤ m0 := not_lt.mp hx
      rw [hstep]
      refine ⟨fun hall => (ih (ix + 1) m0 i0).1 (fun v hv => hall v (List.mem_cons_of_mem x hv)),
        fun hex => ?_⟩
      have hex2 : ∃ v ∈ xs, m0 < v := by
        obtain ⟨v, hv, hlt⟩ := hex
        rcases List.mem_cons.mp hv with rfl | hv
        · exact absurd hlt (not_lt.mpr hle)
        · exact ⟨v, hv, hlt⟩
      obtain ⟨j, hj, hlt, hmax, hfirst, hres⟩ := (ih (ix + 1) m0 i0).2 hex2
      refine ⟨j + 1, by simpa using hj, by simpa using hlt, ?_, ?_, ?_⟩
      · intro v hv
        rcases List.mem_cons.mp hv with rfl | hv
        · simpa using le_of_lt (lt_of_le_of_lt hle hlt)
        · simpa using hmax v hv
      · intro k hk
        cases k with
        | zero => simpa using lt_of_le_of_lt hle hlt
        | succ k => simpa using hfirst k (by omega)
      · rw [hres]
        congr 1
        omega

/-- The winning index of a run over a non-empty score array is a valid index
of that array. -/
theorem largestIndex_lt (r : ImpulseResult) (h : 0 < r.classification.length) :
    largestIndex r < r.classification.length := by
  by_cases hex : ∃ v ∈ r.classification, (0 : ℚ) < v
  · obtain ⟨j, hj, _, _, _, hres⟩ := (findLargest_spec r.classification 0 0 0).2 hex
    unfold largestIndex
    rw [hres, Nat.zero_add]
    exact lt_of_le_of_lt (Nat.mod_le j 256) hj
  · have hall : ∀ v ∈ r.classification, v ≤ (0 : ℚ) := by
      intro v hv
      by_contra hcon
      exact hex ⟨v, hv, not_le.mp hcon⟩
    unfold largestIndex
    rw [(findLargest_spec r.classification 0 0 0).1 hall]
    exact h

/-- C3 (as the code has it): when some score is positive, the winning label of
the run is the lowest index among the labels that attain the maximum score,
reduced modulo 256 by its `uint8_t` store, hence that index itself when there
are at most 256 labels; when no score is positive the winning label is 0. -/
theorem winning_label_is_first_positive_maximum (r : ImpulseResult) :
    ((∃ v ∈ r.classification, 0 < v) →
      ∃ j, j < r.classification.length ∧
        (∀ v ∈ r.classification, v ≤ r.classification.getD j 0) ∧
        (∀ k, k < j → r.classification.getD k 0 < r.classification.getD j 0) ∧
        largestIndex r = j % 256 ∧
        (r.classification.length ≤ 256 → largestIndex r = j)) ∧
    ((∀ v ∈ r.classification, v ≤ 0) → largestIndex r = 0) := by
  refine ⟨fun hex => ?_, fun hall => (findLargest_spec r.classification 0 0 0).1 hall⟩
  obtain ⟨j, hj, _, hmax, hfirst, hres⟩ := (findLargest_spec r.classification 0 0 0).2 hex
  have hres2 : largestIndex r = j % 256 := by
    unfold largestIndex
    rw [hres, Nat.zero_add]
  refine ⟨j, hj, hmax, hfirst, hres2, fun hlen => ?_⟩
  rw [hres2]
  exact Nat.mod_eq_of_lt (by omega)

/-- C3 fails as stated: for the scores -1, 0 the winning label is 0 although
label 1 has the strictly larger score. -/
theorem winning_label_misses_nonpositive_maximum :
    largestIndex { classification := [-1, 0], timing_dsp := 0, timing_classification := 0 } = 0 ∧
    ([-1, 0] : List ℚ).getD 0 0 < ([-1, 0] : List ℚ).getD 1 0 := by
  decide

/-! ## C8: the counts add up to the number of runs -/

theorem incrAt_sum (ts : List Nat) : ∀ i, i < ts.length → ts.sum < 255 →
    (incrAt ts i).sum = ts.sum + 1 := by
  induction ts with
  | nil => intro i hi; simp at hi
  | cons t ts ih =>
    intro i hi hs
    rw [List.sum_cons] at hs
    cases i with
    | zero =>
      have ht : (t + 1) % 256 = t + 1 := Nat.mod_eq_of_lt (by omega)
      simp only [incrAt, List.sum_cons, ht]
      omega
    | succ i =>
      have hi2 : i < ts.length := by simpa using hi
      simp only [incrAt, List.sum_cons, ih i hi2 (by omega)]
      omega

theorem accumulate_sum (L : Nat) (hL : 0 < L) (s : State) (r : ImpulseResult)
    (hlen : s.times.length = L) (hsum : s.times.sum = s.runs) (hruns : s.runs < CHECK_BUCKETS)
    (hr : r.classification.length = L) :
    (accumulate s r).times.sum = (accumulate s r).runs ∧
    (accumulate s r).runs = s.runs + 1 := by
  have h20 : s.runs < 20 := hruns
  have hidx : largestIndex r < s.times.length := by
    rw [hlen, ← hr]
    exact largestIndex_lt r (by omega)
  have h1 : (accumulate s r).times.sum = s.times.sum + 1 :=
    incrAt_sum s.times (largestIndex r) hidx (by omega)
  have h2 : (accumulate s r).runs = s.runs + 1 := by
    rw [accumulate_runs]
    exact Nat.mod_eq_of_lt (by omega)
  exact ⟨by rw [h1, h2, hsum], h2⟩

theorem record_invariant (L : Nat) (hL : 0 < L) (s : State) (r : ImpulseResult)
    (hlen : s.times.length = L) (hsum : s.times.sum = s.runs) (hruns : s.runs < CHECK_BUCKETS)
    (hr : r.classification.length = L) :
    (record s r).1.times.length = L ∧ (record s r).1.times.sum = (record s r).1.runs ∧
    (record s r).1.runs < CHECK_BUCKETS := by
  obtain ⟨hs1, hr1⟩ := accumulate_sum L hL s r hlen hsum hruns hr
  by_cases hge : CHECK_BUCKETS ≤ (accumulate s r).runs
  · rw [record_of_ge s r hge]
    obtain ⟨ht, hz, _⟩ := resolve_reset (accumulate s r)
    refine ⟨?_, ?_, ?_⟩
    · show (resolve (accumulate s r)).1.times.length = L
      rw [ht, List.length_replicate, accumulate_times_length, hlen]
    · show (resolve (accumulate s r)).1.times.sum = (resolve (accumulate s r)).1.runs
      rw [ht, hz]
      simp
    · show (resolve (accumulate s r)).1.runs < CHECK_BUCKETS
      rw [hz]
      decide
  · rw [record_of_lt s r (Nat.not_le.mp hge)]
    exact ⟨by rw [← hlen]; exact accumulate_times_length s r, hs1, Nat.not_le.mp hge⟩

theorem recordAll_invariant (L : Nat) (hL : 0 < L) (rs : List ImpulseResult) :
    ∀ s : State, s.times.length = L → s.times.sum = s.runs → s.runs < CHECK_BUCKETS →
      (∀ r ∈ rs, r.classification.length = L) →
      (recordAll s rs).1.times.length = L ∧
      (recordAll s rs).1.times.sum = (recordAll s rs).1.runs ∧
      (recordAll s rs).1.runs < CHECK_BUCKETS := by
  induction rs with
  | nil => intro s hlen hsum hruns _; exact ⟨hlen, hsum, hruns⟩
  | cons r rs ih =>
    intro s hlen hsum hruns hrs
    obtain ⟨h1, h2, h3⟩ :=
      record_invariant L hL s r hlen hsum hruns (hrs r (List.mem_cons_self r rs))
    exact ih (record s r).1 h1 h2 h3 (fun r' hr' => hrs r' (List.mem_cons_of_mem r hr'))

/-- C8: in every state reached from the initial state of a model with
`L >= 1` labels by any sequence of calls of `record` (each on a result with
`L` scores), the sum of `times` equals `runs` and `runs` is below
`CHECK_BUCKETS = 20` after the call returns; and for every further result the
sum equals `runs` right after the run is counted, so that it equals 20 at the
point where the window is about to be resolved. -/
theorem counts_sum_eq_runs (L : Nat) (hL : 0 < L) (rs : List ImpulseResult)
    (hrs : ∀ r ∈ rs, r.classification.length = L) :
    (recordAll (initState L) rs).1.times.sum = (recordAll (initState L) rs).1.runs ∧
    (recordAll (initState L) rs).1.runs < 20 ∧
    (∀ r : ImpulseResult, r.classification.length = L →
      (accumulate (recordAll (initState L) rs).1 r).times.sum
        = (accumulate (recordAll (initState L) rs).1 r).runs ∧
      (CHECK_BUCKETS ≤ (accumulate (recordAll (initState L) rs).1 r).runs →
        (accumulate (recordAll (initState L) rs).1 r).times.sum = 20)) := by
  have h0len : (initState L).times.length = L := by simp [initState]
  have h0sum : (initState L).times.sum = (initState L).runs := by simp [initState]
  have h0runs : (initState L).runs < CHECK_BUCKETS := by
    show 0 < 20
    omega
  obtain ⟨h1, h2, h3⟩ := recordAll_invariant L hL rs (initState L) h0len h0sum h0runs hrs
  refine ⟨h2, h3, fun r hr => ?_⟩
  obtain ⟨hs1, hr1⟩ := accumulate_sum L hL _ r h1 h2 h3 hr
  refine ⟨hs1, fun hge => ?_⟩
  rw [hs1]
  have h20 : (recordAll (initState L) rs).1.runs < 20 := h3
  have hge20 : 20 ≤ (accumulate (recordAll (initState L) rs).1 r).runs := hge
  omega

/-! ## The scan of the counts -/

theorem scanStep_entries (ix t : Nat) (a : Scan) :
    (scanStep ix t a).entries_over_min
      = (if MIN_BUCKETS ≤ t then (a.entries_over_min + 1) % 256 else a.entries_over_min) ∧
    (scanStep ix t a).entries_over_err
      = (if ERR_BUCKETS ≤ t then (a.entries_over_err + 1) % 256 else a.entries_over_err) := by
  unfold scanStep
  simp only
  split_ifs <;> exact ⟨rfl, rfl⟩

theorem scanStep_gt (ix t : Nat) (a : Scan) (h : a.max_val < t) :
    (scanStep ix t a).max_id = ix % 256 ∧ (scanStep ix t a).max_val = t ∧
    (scanStep ix t a).max_dup = 1 := by
  unfold scanStep
  simp [Nat.le_of_lt h, Nat.ne_of_gt h]

theorem scanStep_eq (ix t : Nat) (a : Scan) (h : t = a.max_val) :
    (scanStep ix t a).max_id = a.max_id ∧ (scanStep ix t a).max_val = a.max_val ∧
    (scanStep ix t a).max_dup = (a.max_dup + 1) % 256 := by
  unfold scanStep
  simp [h]

theorem scanStep_lt (ix t : Nat) (a : Scan) (h : t < a.max_val) :
    (scanStep ix t a).max_id = a.max_id ∧ (scanStep ix t a).max_val = a.max_val ∧
    (scanStep ix t a).max_dup = a.max_dup := by
  unfold scanStep
  simp [Nat.not_le.mpr h]

/-- The two threshold tallies after the scan from index `ix` on: the number
of entries at or above each threshold is added modulo 256. -/
theorem scanLoop_entries (ts : List Nat) : ∀ (ix : Nat) (a : Scan),
    a.entries_over_min < 256 → a.entries_over_err < 256 →
    (scanLoop ts ix a).entries_over_min
      = (a.entries_over_min + ts.countP (fun t => decide (MIN_BUCKETS ≤ t))) % 256 ∧
    (scanLoop ts ix a).entries_over_err
      = (a.entries_over_err + ts.countP (fun t => decide (ERR_BUCKETS ≤ t))) % 256 := by
  induction ts with
  | nil =>
    intro ix a h1 h2
    simp [scanLoop, Nat.mod_eq_of_lt h1, Nat.mod_eq_of_lt h2]
  | cons t ts ih =>
    intro ix a h1 h2
    obtain ⟨e1, e2⟩ := scanStep_entries ix t a
    have b1 : (scanStep ix t a).entries_over_min < 256 := by
      rw [e1]; split_ifs
      · exact Nat.mod_lt _ (by decide)
      · exact h1
    have b2 : (scanStep ix t a).entries_over_err < 256 := by
      rw [e2]; split_ifs
      · exact Nat.mod_lt _ (by decide)
      · exact h2
    obtain ⟨r1, r2⟩ := ih (ix + 1) (scanStep ix t a) b1 b2
    simp only [scanLoop, List.countP_cons, decide_eq_true_eq]
    rw [r1, r2, e1, e2]
    constructor
    · split_ifs <;> omega
    · split_ifs <;> omega

/-- The maximum tracked by the scan from index `ix` on, started with running
maximum `a.max_val`: when no entry exceeds it the maximum and its index stay
and every entry equal to it is added to `max_dup` modulo 256; otherwise the
result is the overall maximum, the position of its first occurrence stored in
a `uint8_t`, and the number of its occurrences modulo 256. -/
theorem scanLoop_max (ts : List Nat) : ∀ (ix : Nat) (a : Scan), a.max_dup < 256 →
    ((∀ t ∈ ts, t ≤ a.max_val) →
      (scanLoop ts ix a).max_val = a.max_val ∧ (scanLoop ts ix a).max_id = a.max_id ∧
      (scanLoop ts ix a).max_dup = (a.max_dup + ts.count a.max_val) % 256) ∧
    ((∃ t ∈ ts, a.max_val < t) →
      ∃ j, j < ts.length ∧ a.max_val < ts.getD j 0 ∧
        (∀ t ∈ ts, t ≤ ts.getD j 0) ∧ (∀ k, k < j → ts.getD k 0 < ts.getD j 0) ∧
        (scanLoop ts ix a).max_val = ts.getD j 0 ∧
        (scanLoop ts ix a).max_id = (ix + j) % 256 ∧
        (scanLoop ts ix a).max_dup = ts.count (ts.getD j 0) % 256) := by
  induction ts with
  | nil =>
    intro ix a ha
    refine ⟨fun _ => ?_, fun ⟨t, ht, _⟩ => absurd ht (List.not_mem_nil t)⟩
    simp [scanLoop, Nat.mod_eq_of_lt ha]
  | cons t ts ih =>
    intro ix a ha
    have hloop : scanLoop (t :: ts) ix a = scanLoop ts (ix + 1) (scanStep ix t a) := rfl
    rw [hloop]
    rcases Nat.lt_trichotomy t a.max_val with hlt | heq | hgt
    · -- the entry is below the running maximum
      obtain ⟨s1, s2, s3⟩ := scanStep_lt ix t a hlt
      obtain ⟨ih1, ih2⟩ := ih (ix + 1) (scanStep ix t a) (by rw [s3]; exact ha)
      rw [s2, s1, s3] at ih1
      rw [s2] at ih2
      constructor
      · intro hall
        obtain ⟨r1, r2, r3⟩ := ih1 (fun t' ht' => hall t' (List.mem_cons_of_mem t ht'))
        refine ⟨r1, r2, ?_⟩
        rw [r3, List.count_cons_of_ne (Nat.ne_of_gt hlt)]
      · intro hex
        have hex2 : ∃ t' ∈ ts, a.max_val < t' := by
          obtain ⟨t', ht', hlt'⟩ := hex
          rcases List.mem_cons.mp ht' with rfl | ht'
          · omega
          · exact ⟨t', ht', hlt'⟩
        obtain ⟨j, hj, hgt, hmax, hfirst, r1, r2, r3⟩ := ih2 hex2
        refine ⟨j + 1, by simpa using hj, by simpa using hgt, ?_, ?_, ?_, ?_, ?_⟩
        · intro t' ht'
          rcases List.mem_cons.mp ht' with rfl | ht'
          · simp only [List.getD_cons_succ]; omega
          · simpa using hmax t' ht'
        · intro k hk
          cases k with
          | zero => simp only [List.getD_cons_zero, List.getD_cons_succ]; omega
          | succ k => simpa using hfirst k (by omega)
        · simpa using r1
        · rw [r2]; congr 1; omega
        · simp only [List.getD_cons_succ]
          rw [r3, List.count_cons_of_ne (by omega)]
    · -- the entry ties the running maximum
      obtain ⟨s1, s2, s3⟩ := scanStep_eq ix t a heq
      obtain ⟨ih1, ih2⟩ := ih (ix + 1) (scanStep ix t a)
        (by rw [s3]; exact Nat.mod_lt _ (by decide))
      rw [s2, s1, s3] at ih1
      rw [s2] at ih2
      constructor
      · intro hall
        obtain ⟨r1, r2, r3⟩ := ih1 (fun t' ht' => hall t' (List.mem_cons_of_mem t ht'))
        refine ⟨r1, r2, ?_⟩
        rw [r3, heq, List.count_cons_self]
        omega
      · intro hex
        have hex2 : ∃ t' ∈ ts, a.max_val < t' := by
          obtain ⟨t', ht', hlt'⟩ := hex
          rcases List.mem_cons.mp ht' with rfl | ht'
          · omega
          · exact ⟨t', ht', hlt'⟩
        obtain ⟨j, hj, hgt, hmax, hfirst, r1, r2, r3⟩ := ih2 hex2
        refine ⟨j + 1, by simpa using hj, by simpa using hgt, ?_, ?_, ?_, ?_, ?_⟩
        · intro t' ht'
          rcases List.mem_cons.mp ht' with rfl | ht'
          · simp only [List.getD_cons_succ]; omega
          · simpa using hmax t' ht'
        · intro k hk
          cases k with
          | zero => simp only [List.getD_cons_zero, List.getD_cons_succ]; omega
          | succ k => simpa using hfirst k (by omega)
        · simpa using r1
        · rw [r2]; congr 1; omega
        · simp only [List.getD_cons_succ]
          rw [r3, List.count_cons_of_ne (by omega)]
    · -- the entry is a new maximum
      obtain ⟨s1, s2, s3⟩ := scanStep_gt ix t a hgt
      obtain ⟨ih1, ih2⟩ := ih (ix + 1) (scanStep ix t a) (by rw [s3]; decide)
      rw [s2, s1, s3] at ih1
      rw [s2] at ih2
      refine ⟨fun hall => absurd (hall t (List.mem_cons_self t ts)) (by omega), fun _ => ?_⟩
      by_cases hex : ∃ t' ∈ ts, t < t'
      · obtain ⟨j, hj, hgt2, hmax, hfirst, r1, r2, r3⟩ := ih2 hex
        refine ⟨j + 1, by simpa using hj, ?_, ?_, ?_, ?_, ?_, ?_⟩
        · simp only [List.getD_cons_succ]; omega
        · intro t' ht'
          rcases List.mem_cons.mp ht' with rfl | ht'
          · simp only [List.getD_cons_succ]; omega
          · simpa using hmax t' ht'
        · intro k hk
          cases k with
          | zero => simpa using hgt2
          | succ k => simpa using hfirst k (by omega)
        · simpa using r1
        · rw [r2]; congr 1; omega
        · simp only [List.getD_cons_succ]
          rw [r3, List.count_cons_of_ne (by omega)]
      · have hall : ∀ t' ∈ ts, t' ≤ t := by
          intro t' ht'
          by_contra hcon
          exact hex ⟨t', ht', Nat.not_le.mp hcon⟩
        obtain ⟨r1, r2, r3⟩ := ih1 hall
        refine ⟨0, by simp, by simpa using hgt, ?_, ?_, ?_, ?_, ?_⟩
        · intro t' ht'
          rcases List.mem_cons.mp ht' with rfl | ht'
          · simp
          · simpa using hall t' ht'
        · intro k hk
          omega
        · simpa using r1
        · rw [r2]; rfl
        · simp only [List.getD_cons_zero]
          rw [r3, List.count_cons_self]
          congr 1
          omega

theorem countP_mul_le_sum (c : Nat) (ts : List Nat) :
    ts.countP (fun t => decide (c ≤ t)) * c ≤ ts.sum := by
  induction ts with
  | nil => simp
  | cons t ts ih =>
    simp only [List.countP_cons, decide_eq_true_eq, List.sum_cons]
    split_ifs with h
    · rw [Nat.add_mul, Nat.one_mul]; omega
    · rw [Nat.add_zero]; omega

/-! ## Windows of 20 runs -/

theorem largestIndex_lt_256 (r : ImpulseResult) : largestIndex r < 256 := by
  by_cases hex : ∃ v ∈ r.classification, (0 : ℚ) < v
  · obtain ⟨j, _, _, _, _, hres⟩ := (findLargest_spec r.classification 0 0 0).2 hex
    unfold largestIndex
    rw [hres]
    exact Nat.mod_lt _ (by decide)
  · have hall : ∀ v ∈ r.classification, v ≤ (0 : ℚ) := by
      intro v hv
      by_contra hcon
      exact hex ⟨v, hv, not_le.mp hcon⟩
    unfold largestIndex
    rw [(findLargest_spec r.classification 0 0 0).1 hall]
    decide

theorem incrAt_getD (ts : List Nat) : ∀ i k, (incrAt ts i).getD k 0
    = if k = i ∧ i < ts.length then (ts.getD i 0 + 1) % 256 else ts.getD k 0 := by
  induction ts with
  | nil => intro i k; simp [incrAt]
  | cons t ts ih =>
    intro i k
    cases i with
    | zero =>
      cases k with
      | zero => simp [incrAt]
      | succ k => simp [incrAt]
    | succ i =>
      cases k with
      | zero => simp [incrAt]
      | succ k =>
        simp only [incrAt, List.getD_cons_succ, ih i k, List.length_cons]
        simp only [Nat.add_lt_add_iff_right, Nat.add_right_cancel_iff]

theorem accumulateAll_concat (s : State) (rs : List ImpulseResult) (r : ImpulseResult) :
    accumulateAll s (rs ++ [r]) = accumulate (accumulateAll s rs) r := by
  simp [accumulateAll, List.foldl_append]

theorem accumulateAll_frame (rs : List ImpulseResult) : ∀ s : State,
    (accumulateAll s rs).prev_fails = s.prev_fails ∧
    (accumulateAll s rs).total_runs = s.total_runs ∧
    (accumulateAll s rs).times.length = s.times.length ∧
    (s.runs + rs.length ≤ 255 → (accumulateAll s rs).runs = s.runs + rs.length) := by
  induction rs with
  | nil => intro s; exact ⟨rfl, rfl, rfl, fun _ => rfl⟩
  | cons r rs ih =>
    intro s
    obtain ⟨h1, h2, h3, h4⟩ := ih (accumulate s r)
    refine ⟨h1, h2, by rw [← accumulate_times_length s r]; exact h3, fun hle => ?_⟩
    simp only [List.length_cons] at hle
    have hr : (accumulate s r).runs = s.runs + 1 := by
      rw [accumulate_runs]
      exact Nat.mod_eq_of_lt (by omega)
    show (accumulateAll (accumulate s r) rs).runs = s.runs + (rs.length + 1)
    rw [h4 (by omega), hr]
    omega

theorem recordAll_eq_accumulateAll (rs : List ImpulseResult) : ∀ s : State,
    s.runs + rs.length < CHECK_BUCKETS →
    recordAll s rs = (accumulateAll s rs, List.replicate rs.length none) := by
  induction rs with
  | nil => intro s _; rfl
  | cons r rs ih =>
    intro s hlt
    have hlt' : s.runs + (rs.length + 1) < 20 := hlt
    have hr : (accumulate s r).runs = s.runs + 1 := by
      rw [accumulate_runs]
      exact Nat.mod_eq_of_lt (by omega)
    have hrec : record s r = (accumulate s r, none) :=
      record_of_lt s r (by rw [hr]; show s.runs + 1 < 20; omega)
    have hih := ih (accumulate s r) (by rw [hr]; show s.runs + 1 + rs.length < 20; omega)
    simp only [recordAll, hrec, hih, List.length_cons, List.replicate_succ]
    rfl

theorem recordAll_append (xs ys : List ImpulseResult) : ∀ s : State,
    recordAll s (xs ++ ys)
      = ((recordAll (recordAll s xs).1 ys).1,
         (recordAll s xs).2 ++ (recordAll (recordAll s xs).1 ys).2) := by
  induction xs with
  | nil => intro s; rfl
  | cons x xs ih =>
    intro s
    have e : recordAll s (x :: xs ++ ys)
        = ((recordAll (record s x).1 (xs ++ ys)).1,
           (record s x).2 :: (recordAll (record s x).1 (xs ++ ys)).2) := rfl
    rw [e, ih]
    rfl

/-- A window of 20 runs from a state with `runs = 0`: nineteen calls that
return nothing, then the resolution of the state in which all 20 runs have
been counted. -/
theorem recordAll_window (s : State) (rs : List ImpulseResult) (hs : s.runs = 0)
    (hlen : rs.length = CHECK_BUCKETS) :
    recordAll s rs = ((resolve (accumulateAll s rs)).1,
      List.replicate 19 none ++ [some (resolve (accumulateAll s rs)).2]) := by
  have hlen' : rs.length = 20 := hlen
  have hne : rs ≠ [] := by
    intro h
    rw [h] at hlen'
    simp at hlen'
  obtain ⟨xs, r, rfl⟩ : ∃ xs r, rs = xs ++ [r] :=
    ⟨rs.dropLast, rs.getLast hne, (List.dropLast_append_getLast hne).symm⟩
  have hx : xs.length = 19 := by
    simp only [List.length_append, List.length_singleton] at hlen'
    omega
  have h1 := recordAll_eq_accumulateAll xs s (by rw [hs, hx]; decide)
  have hruns : (accumulateAll s xs).runs = 19 := by
    rw [(accumulateAll_frame xs s).2.2.2 (by omega), hs, hx]
  have hge : CHECK_BUCKETS ≤ (accumulate (accumulateAll s xs) r).runs := by
    rw [accumulate_runs, hruns]
    decide
  rw [recordAll_append, h1, accumulateAll_concat, hx]
  simp only [recordAll, record_of_ge _ r hge]

/-- The counts of a window in progress are the tallies of the winning labels:
from all-zero counts, after at most 255 runs on results with `L >= 1` scores,
`times[i]` is the number of runs that label `i` won. -/
theorem accumulateAll_tally (L : Nat) (hL : 0 < L) (s : State)
    (hs : s.times = List.replicate L 0) (rs : List ImpulseResult) :
    rs.length ≤ 255 → (∀ r ∈ rs, r.classification.length = L) →
    (accumulateAll s rs).times.length = L ∧
    ∀ i, (accumulateAll s rs).times.getD i 0 = (winners rs).count i := by
  induction rs using List.reverseRecOn with
  | nil =>
    intro _ _
    refine ⟨by simp [accumulateAll, hs], fun i => ?_⟩
    simp only [accumulateAll, List.foldl_nil, hs, winners, List.map_nil, List.count_nil]
    by_cases hi : i < L
    · rw [List.getD_eq_getElem _ _ (by simpa using hi)]
      simp
    · rw [List.getD_eq_default _ _ (by simpa using hi)]
  | append_singleton rs r ih =>
    intro hlen hwf
    simp only [List.length_append, List.length_singleton] at hlen
    obtain ⟨h1, h2⟩ := ih (by omega) (fun r' hr' => hwf r' (List.mem_append_left _ hr'))
    have hrL : r.classification.length = L := hwf r (by simp)
    have hw : largestIndex r < L := by
      rw [← hrL]
      exact largestIndex_lt r (by omega)
    rw [accumulateAll_concat]
    refine ⟨by rw [accumulate_times_length, h1], fun i => ?_⟩
    show (incrAt (accumulateAll s rs).times (largestIndex r)).getD i 0 = _
    have hc : (winners rs).count (largestIndex r) ≤ rs.length := by
      have := List.count_le_length (largestIndex r) (winners rs)
      simpa [winners] using this
    rw [incrAt_getD, h1, h2, h2]
    simp only [winners, List.map_append, List.map_cons, List.map_nil, List.count_append,
      List.count_singleton, hw, and_true]
    by_cases hi : i = largestIndex r
    · subst hi
      simp only [if_true, beq_self_eq_true]
      exact Nat.mod_eq_of_lt (by simp only [winners] at hc; omega)
    · have hne : (largestIndex r == i) = false := by
        simpa using fun h => hi h.symm
      simp [hi, hne]

theorem accumulateAll_sum (L : Nat) (hL : 0 < L) (rs : List ImpulseResult) : ∀ s : State,
    s.times.length = L → s.times.sum = s.runs → s.runs + rs.length ≤ CHECK_BUCKETS →
    (∀ r ∈ rs, r.classification.length = L) →
    (accumulateAll s rs).times.sum = s.runs + rs.length := by
  induction rs with
  | nil => intro s _ hsum _ _; exact hsum
  | cons r rs ih =>
    intro s hlen hsum hle hwf
    have hle' : s.runs + (rs.length + 1) ≤ 20 := hle
    obtain ⟨h1, h2⟩ := accumulate_sum L hL s r hlen hsum (show s.runs < 20 by omega)
      (hwf r (List.mem_cons_self r rs))
    have hih := ih (accumulate s r) (by rw [accumulate_times_length, hlen]) h1
      (by rw [h2]; show s.runs + 1 + rs.length ≤ 20; omega)
      (fun r' hr' => hwf r' (List.mem_cons_of_mem r hr'))
    show (accumulateAll (accumulate s r) rs).times.sum = s.runs + (rs.length + 1)
    rw [hih, h2]
    omega

/-- The state in which a window of 20 runs, started from all-zero counts, is
resolved. -/
theorem window_state (L : Nat) (hL : 0 < L) (s : State) (hs : s.times = List.replicate L 0)
    (hr : s.runs = 0) (rs : List ImpulseResult) (hlen : rs.length = CHECK_BUCKETS)
    (hwf : ∀ r ∈ rs, r.classification.length = L) :
    recordAll s rs = ((resolve (accumulateAll s rs)).1,
      List.replicate 19 none ++ [some (resolve (accumulateAll s rs)).2]) ∧
    (accumulateAll s rs).times.length = L ∧
    (∀ i, (accumulateAll s rs).times.getD i 0 = (winners rs).count i) ∧
    (accumulateAll s rs).times.sum = 20 ∧
    (accumulateAll s rs).prev_fails = s.prev_fails := by
  have hlen' : rs.length = 20 := hlen
  obtain ⟨t1, t2⟩ := accumulateAll_tally L hL s hs rs (by omega) hwf
  refine ⟨recordAll_window s rs hr hlen, t1, t2, ?_, (accumulateAll_frame rs s).1⟩
  rw [accumulateAll_sum L hL rs s (by simp [hs]) (by simp [hs, hr])
    (by rw [hr, hlen']; decide) hwf, hr, hlen']

/-! ### Facts about lists of counts -/

theorem getD_mem (ts : List Nat) (i : Nat) (hi : i < ts.length) : ts.getD i 0 ∈ ts := by
  rw [List.getD_eq_getElem _ _ hi]
  exact List.getElem_mem hi

theorem exists_getD_of_mem (ts : List Nat) (t : Nat) (ht : t ∈ ts) :
    ∃ i, i < ts.length ∧ ts.getD i 0 = t := by
  obtain ⟨i, hi, e⟩ := List.mem_iff_getElem.mp ht
  exact ⟨i, hi, by rw [List.getD_eq_getElem _ _ hi]; exact e⟩

theorem two_le_count (ts : List Nat) (v : Nat) : ∀ a b, a < b → b < ts.length →
    ts.getD a 0 = v → ts.getD b 0 = v → 2 ≤ ts.count v := by
  induction ts with
  | nil => intro a b _ hb; simp at hb
  | cons t ts ih =>
    intro a b hab hb ha hbv
    cases b with
    | zero => omega
    | succ b =>
      have hb' : b < ts.length := by simpa using hb
      rw [List.getD_cons_succ] at hbv
      cases a with
      | zero =>
        rw [List.getD_cons_zero] at ha
        have hmem : v ∈ ts := by rw [← hbv]; exact getD_mem ts b hb'
        have hpos := List.count_pos_iff.mpr hmem
        rw [ha, List.count_cons_self]
        omega
      | succ a =>
        rw [List.getD_cons_succ] at ha
        have := ih a b (by omega) hb' ha hbv
        have hle : ts.count v ≤ (t :: ts).count v := by
          rw [List.count_cons]
          omega
        omega

theorem count_le_countP_ge (ts : List Nat) (c v : Nat) (hcv : c ≤ v) :
    ts.count v ≤ ts.countP (fun t => decide (c ≤ t)) := by
  rw [List.count_eq_countP]
  apply List.countP_mono_left
  intro x _ hx
  have : x = v := by simpa using hx
  simpa [this] using hcv

/-- Each count of 10 or more weighs 10 and each count from 5 to 9 weighs 5 in
the sum of the counts. -/
theorem weighted_tallies_le_sum (ts : List Nat) :
    5 * ts.countP (fun t => decide (5 ≤ t)) + 5 * ts.countP (fun t => decide (10 ≤ t))
      ≤ ts.sum := by
  induction ts with
  | nil => simp
  | cons t ts ih =>
    simp only [List.countP_cons, decide_eq_true_eq, List.sum_cons]
    split_ifs <;> omega

theorem countP_ge_mono (ts : List Nat) :
    ts.countP (fun t => decide (10 ≤ t)) ≤ ts.countP (fun t => decide (5 ≤ t)) := by
  apply List.countP_mono_left
  intro x _ hx
  have : 10 ≤ x := by simpa using hx
  simpa using (by omega : 5 ≤ x)

/-- With counts that sum to 20 the two threshold tallies do not wrap. -/
theorem scanTimes_entries_exact (ts : List Nat) (hsum : ts.sum = 20) :
    (scanTimes ts).entries_over_min = ts.countP (fun t => decide (10 ≤ t)) ∧
    (scanTimes ts).entries_over_err = ts.countP (fun t => decide (5 ≤ t)) := by
  obtain ⟨e1, e2⟩ := scanLoop_entries ts 0 scanInit (by decide) (by decide)
  have e1' : (scanTimes ts).entries_over_min
      = (0 + ts.countP (fun t => decide (10 ≤ t))) % 256 := e1
  have e2' : (scanTimes ts).entries_over_err
      = (0 + ts.countP (fun t => decide (5 ≤ t))) % 256 := e2
  have m := weighted_tallies_le_sum ts
  have m2 := countP_ge_mono ts
  rw [e1', e2', Nat.zero_add, Nat.zero_add]
  exact ⟨Nat.mod_eq_of_lt (by omega), Nat.mod_eq_of_lt (by omega)⟩

/-- The maximum found by the whole scan, for counts that are not all zero. -/
theorem scanTimes_max (ts : List Nat) (h : ∃ t ∈ ts, t ≠ 0) :
    ∃ j, j < ts.length ∧ ts.getD j 0 = (scanTimes ts).max_val ∧
      (∀ t ∈ ts, t ≤ (scanTimes ts).max_val) ∧
      (∀ k, k < j → ts.getD k 0 < (scanTimes ts).max_val) ∧
      (scanTimes ts).max_id = j % 256 ∧
      (scanTimes ts).max_dup = ts.count (scanTimes ts).max_val % 256 := by
  have hex : ∃ t ∈ ts, scanInit.max_val < t := by
    obtain ⟨t, ht, hne⟩ := h
    exact ⟨t, ht, Nat.pos_of_ne_zero hne⟩
  obtain ⟨j, hj, _, hmax, hfirst, r1, r2, r3⟩ := (scanLoop_max ts 0 scanInit (by decide)).2 hex
  have e1 : (scanTimes ts).max_val = ts.getD j 0 := r1
  have e2 : (scanTimes ts).max_id = (0 + j) % 256 := r2
  have e3 : (scanTimes ts).max_dup = ts.count (ts.getD j 0) % 256 := r3
  rw [e1]
  rw [Nat.zero_add] at e2
  exact ⟨j, hj, rfl, hmax, hfirst, e2, e3⟩

theorem sum_map_count_cons (w : Nat) (ws ls : List Nat) :
    (ls.map (fun l => (w :: ws).count l)).sum
      = (ls.map (fun l => ws.count l)).sum + ls.count w := by
  induction ls with
  | nil => simp
  | cons l ls ih =>
    rw [List.map_cons, List.sum_cons, List.map_cons, List.sum_cons, ih]
    have h1 : (w :: ws).count l = ws.count l + if w == l then 1 else 0 :=
      List.count_cons l w ws
    have h2 : (l :: ls).count w = ls.count w + if l == w then 1 else 0 :=
      List.count_cons w l ls
    by_cases h : w = l
    · subst h
      simp only [beq_self_eq_true, if_true] at h1 h2
      omega
    · have e1 : (w == l) = false := by simpa using h
      have e2 : (l == w) = false := by simpa using fun e : l = w => h e.symm
      rw [e1] at h1
      rw [e2] at h2
      simp only [Bool.false_eq_true, if_false] at h1 h2
      omega

/-- Distinct labels share the runs of a window between them. -/
theorem sum_count_le_length (ls : List Nat) (hnd : ls.Nodup) : ∀ ws : List Nat,
    (ls.map (fun l => ws.count l)).sum ≤ ws.length := by
  intro ws
  induction ws with
  | nil => simp
  | cons w ws ih =>
    rw [sum_map_count_cons]
    have := List.nodup_iff_count_le_one.mp hnd w
    simp only [List.length_cons]
    omega

/-- The scan of counts that sum to 20 and take only the values 0 and `m`, with
`m >= 10`: the maximum is `m`, found at its first position, and all three
tallies equal the number of entries equal to `m`. -/
theorem scan_of_two_valued (ts : List Nat) (hsum : ts.sum = 20) (m : Nat) (hm : 10 ≤ m)
    (hvals : ∀ t ∈ ts, t = 0 ∨ t = m) (a : Nat) (ha : a < ts.length) (ha256 : a < 256)
    (hat : ts.getD a 0 = m) (hfirst : ∀ k, k < a → ts.getD k 0 = 0) :
    (scanTimes ts).max_val = m ∧ (scanTimes ts).max_id = a ∧
    (scanTimes ts).max_dup = ts.count m ∧
    (scanTimes ts).entries_over_min = ts.count m ∧
    (scanTimes ts).entries_over_err = ts.count m := by
  have hmem : m ∈ ts := by rw [← hat]; exact getD_mem ts a ha
  obtain ⟨j, hj, hjv, hmax, hjfirst, hid, hdup⟩ := scanTimes_max ts ⟨m, hmem, by omega⟩
  have hval : (scanTimes ts).max_val = m := by
    have h1 := hmax m hmem
    have h2 : (scanTimes ts).max_val ∈ ts := by rw [← hjv]; exact getD_mem ts j hj
    rcases hvals _ h2 with h0 | h0
    · omega
    · exact h0
  have hja : j = a := by
    rcases Nat.lt_trichotomy j a with h | h | h
    · have := hfirst j h
      rw [hjv, hval] at this
      omega
    · exact h
    · have := hjfirst a h
      rw [hat, hval] at this
      omega
  have hc : ts.count m ≤ 2 := by
    have h1 := count_le_countP_ge ts 10 m hm
    have h2 := countP_mul_le_sum 10 ts
    omega
  obtain ⟨e1, e2⟩ := scanTimes_entries_exact ts hsum
  have c1 : ts.countP (fun t => decide (10 ≤ t)) = ts.count m := by
    rw [List.count_eq_countP]
    apply List.countP_congr
    intro x hx
    have hx' := hvals x hx
    simp only [decide_eq_true_eq, beq_iff_eq]
    constructor
    · intro h
      omega
    · intro h
      omega
  have c2 : ts.countP (fun t => decide (5 ≤ t)) = ts.count m := by
    rw [List.count_eq_countP]
    apply List.countP_congr
    intro x hx
    have hx' := hvals x hx
    simp only [decide_eq_true_eq, beq_iff_eq]
    constructor
    · intro h
      omega
    · intro h
      omega
  refine ⟨hval, ?_, ?_, by rw [e1, c1], by rw [e2, c2]⟩
  · rw [hid, hja]
    exact Nat.mod_eq_of_lt ha256
  · rw [hdup, hval]
    exact Nat.mod_eq_of_lt (by omega)

/-- The verdict and the streak when the scan finds a clear winner. -/
theorem resolve_winner (s : State) (h1 : (scanTimes s.times).entries_over_min ≠ 0)
    (h2 : (scanTimes s.times).entries_over_err < ERR_BUCKETS_FAIL_COUNT) :
    (resolve s).1.prev_fails = s.prev_fails ∧
    (resolve s).2.high_fail = false ∧ (resolve s).2.single_fail = false ∧
    ((scanTimes s.times).max_id ∈ good_points →
      (resolve s).2.outcome = [Outcome.GoodFrequency] ∧
      (resolve s).2.good_pass = true ∧ (resolve s).2.bad_pass = false) ∧
    ((scanTimes s.times).max_id ∉ good_points →
      (resolve s).2.outcome = [Outcome.BadFrequency] ∧
      (resolve s).2.good_pass = false ∧ (resolve s).2.bad_pass = true) := by
  by_cases h3 : (scanTimes s.times).max_id ∈ good_points
  · have b := resolve_good s h1 h2 h3
    exact ⟨b.prev_fails, b.high_fail, b.single_fail,
      fun _ => ⟨b.outcome, b.good_pass, b.bad_pass⟩, fun h => absurd h3 h⟩
  · have b := resolve_bad s h1 h2 h3
    exact ⟨b.prev_fails, b.high_fail, b.single_fail,
      fun h => absurd h h3, fun _ => ⟨b.outcome, b.good_pass, b.bad_pass⟩⟩

/-! ## C12: a unanimous window -/

/-- C12: for every label `g < L` and every state at a window boundary
(`times` all zero, `runs = 0`), a window of 20 runs that label `g` wins every
time ends with a verdict that has `max_id = g`, `max_val = 20`, `max_dup = 1`,
`entries_over_min = 1`, `entries_over_err = 1`, neither failure flag, and is
GoodFrequency if `g` is one of 1, 3, 4, 5, 6 and BadFrequency otherwise; for
`g = 1` it is GoodFrequency. -/
theorem unanimous_window_verdict (L g : Nat) (hg : g < L) (s : State)
    (hs : s.times = List.replicate L 0) (hr : s.runs = 0) (rs : List ImpulseResult)
    (hlen : rs.length = 20) (hwf : ∀ r ∈ rs, r.classification.length = L)
    (hwin : ∀ r ∈ rs, largestIndex r = g) :
    ∃ v, (recordAll s rs).2 = List.replicate 19 none ++ [some v] ∧
      v.max_id = g ∧ v.max_val = 20 ∧ v.max_dup = 1 ∧
      v.entries_over_min = 1 ∧ v.entries_over_err = 1 ∧
      v.high_fail = false ∧ v.single_fail = false ∧
      (g ∈ [1, 3, 4, 5, 6] →
        v.outcome = [Outcome.GoodFrequency] ∧ v.good_pass = true ∧ v.bad_pass = false) ∧
      (g ∉ [1, 3, 4, 5, 6] →
        v.outcome = [Outcome.BadFrequency] ∧ v.good_pass = false ∧ v.bad_pass = true) ∧
      (g = 1 → v.outcome = [Outcome.GoodFrequency]) := by
  obtain ⟨hrec, hlenL, htal, hsum, _⟩ := window_state L (by omega) s hs hr rs hlen hwf
  have hw : winners rs = List.replicate 20 g := by
    apply List.eq_replicate_iff.mpr
    refine ⟨by simp [winners, hlen], fun b hb => ?_⟩
    simp only [winners, List.mem_map] at hb
    obtain ⟨r, hrm, rfl⟩ := hb
    exact hwin r hrm
  have hg256 : g < 256 := by
    cases rs with
    | nil => simp at hlen
    | cons r rs =>
      rw [← hwin r (List.mem_cons_self r rs)]
      exact largestIndex_lt_256 r
  have hpt : ∀ i, (accumulateAll s rs).times.getD i 0 = if i = g then 20 else 0 := by
    intro i
    rw [htal, hw, List.count_replicate]
    by_cases h : i = g
    · simp [h]
    · have h' : ¬ g = i := fun e => h e.symm
      simp [h, h']
  have hvals : ∀ t ∈ (accumulateAll s rs).times, t = 0 ∨ t = 20 := by
    intro t ht
    obtain ⟨i, _, hi⟩ := exists_getD_of_mem _ t ht
    rw [hpt] at hi
    split_ifs at hi <;> omega
  have hat : (accumulateAll s rs).times.getD g 0 = 20 := by rw [hpt]; simp
  have hcount : (accumulateAll s rs).times.count 20 = 1 := by
    have hmem : 20 ∈ (accumulateAll s rs).times := by
      rw [← hat]
      exact getD_mem _ g (by rw [hlenL]; exact hg)
    have h1 := List.count_pos_iff.mpr hmem
    have h2 := count_le_countP_ge (accumulateAll s rs).times 20 20 (Nat.le_refl 20)
    have h3 := countP_mul_le_sum 20 (accumulateAll s rs).times
    omega
  obtain ⟨q1, q2, q3, q4, q5⟩ := scan_of_two_valued (accumulateAll s rs).times hsum 20
    (by decide) hvals g (by rw [hlenL]; exact hg) hg256 hat
    (fun k hk => by rw [hpt]; simp [Nat.ne_of_lt hk])
  rw [hcount] at q3 q4 q5
  obtain ⟨_, f1, f2, f3, f4, f5, _⟩ := resolve_scan (accumulateAll s rs)
  obtain ⟨_, w2, w3, w4, w5⟩ := resolve_winner (accumulateAll s rs)
    (by rw [q4]; decide) (by rw [q5]; decide)
  rw [q2] at w4 w5
  refine ⟨(resolve (accumulateAll s rs)).2, by rw [hrec], by rw [f3, q2], by rw [f4, q1],
    by rw [f5, q3], by rw [f1, q4], by rw [f2, q5], w2, w3, w4, w5, fun h1 => ?_⟩
  exact (w4 (by rw [h1]; decide)).1

/-! ## C13: a window split 10/10 -/

theorem winner_lt_256 (rs : List ImpulseResult) (a : Nat) (h : 0 < (winners rs).count a) :
    a < 256 := by
  have hmem := List.count_pos_iff.mp h
  simp only [winners, List.mem_map] at hmem
  obtain ⟨r, _, rfl⟩ := hmem
  exact largestIndex_lt_256 r

/-- C13: for every pair of labels `a < b < L` and every window of 20 runs from
a window boundary in which `a` wins 10 runs and `b` wins 10, in any order, the
verdict has `entries_over_min = 2`, `entries_over_err = 2`, `max_id = a`,
`max_val = 10`, `max_dup = 2`; it goes through the frequency-determined branch
(no failure flag, `prev_fails` untouched) and is GoodFrequency or BadFrequency
according to `a` alone; for `a = 1` it is GoodFrequency. -/
theorem even_split_window_verdict (L a b : Nat) (hab : a < b) (hb : b < L) (s : State)
    (hs : s.times = List.replicate L 0) (hr : s.runs = 0) (rs : List ImpulseResult)
    (hlen : rs.length = 20) (hwf : ∀ r ∈ rs, r.classification.length = L)
    (ha10 : (winners rs).count a = 10) (hb10 : (winners rs).count b = 10) :
    ∃ v, (recordAll s rs).2 = List.replicate 19 none ++ [some v] ∧
      v.entries_over_min = 2 ∧ v.entries_over_err = 2 ∧
      v.max_id = a ∧ v.max_val = 10 ∧ v.max_dup = 2 ∧
      v.high_fail = false ∧ v.single_fail = false ∧
      (recordAll s rs).1.prev_fails = s.prev_fails ∧
      (a ∈ [1, 3, 4, 5, 6] →
        v.outcome = [Outcome.GoodFrequency] ∧ v.good_pass = true ∧ v.bad_pass = false) ∧
      (a ∉ [1, 3, 4, 5, 6] →
        v.outcome = [Outcome.BadFrequency] ∧ v.good_pass = false ∧ v.bad_pass = true) ∧
      (a = 1 → v.outcome = [Outcome.GoodFrequency]) := by
  obtain ⟨hrec, hlenL, htal, hsum, hpf⟩ := window_state L (by omega) s hs hr rs hlen hwf
  have hwlen : (winners rs).length = 20 := by simp [winners, hlen]
  have hother : ∀ i, i ≠ a → i ≠ b → (winners rs).count i = 0 := by
    intro i hia hib
    have hnd : [i, a, b].Nodup := by
      simp only [List.nodup_cons, List.mem_cons, List.mem_singleton, List.not_mem_nil,
        not_or, not_false_eq_true, List.nodup_nil, and_true]
      exact ⟨⟨hia, hib⟩, Nat.ne_of_lt hab⟩
    have := sum_count_le_length [i, a, b] hnd (winners rs)
    simp only [List.map_cons, List.map_nil, List.sum_cons, List.sum_nil, ha10, hb10,
      hwlen] at this
    omega
  have hvals : ∀ t ∈ (accumulateAll s rs).times, t = 0 ∨ t = 10 := by
    intro t ht
    obtain ⟨i, _, hi⟩ := exists_getD_of_mem _ t ht
    rw [htal] at hi
    by_cases hia : i = a
    · rw [hia, ha10] at hi
      exact Or.inr hi.symm
    · by_cases hib : i = b
      · rw [hib, hb10] at hi
        exact Or.inr hi.symm
      · rw [hother i hia hib] at hi
        exact Or.inl hi.symm
  have hata : (accumulateAll s rs).times.getD a 0 = 10 := by rw [htal, ha10]
  have hatb : (accumulateAll s rs).times.getD b 0 = 10 := by rw [htal, hb10]
  have hcount : (accumulateAll s rs).times.count 10 = 2 := by
    have h1 := two_le_count (accumulateAll s rs).times 10 a b hab (by rw [hlenL]; exact hb)
      hata hatb
    have h2 := count_le_countP_ge (accumulateAll s rs).times 10 10 (Nat.le_refl 10)
    have h3 := countP_mul_le_sum 10 (accumulateAll s rs).times
    omega
  obtain ⟨q1, q2, q3, q4, q5⟩ := scan_of_two_valued (accumulateAll s rs).times hsum 10
    (by decide) hvals a (by rw [hlenL]; omega)
    (winner_lt_256 rs a (by rw [ha10]; decide)) hata
    (fun k hk => by rw [htal]; exact hother k (by omega) (by omega))
  rw [hcount] at q3 q4 q5
  obtain ⟨_, f1, f2, f3, f4, f5, _⟩ := resolve_scan (accumulateAll s rs)
  obtain ⟨w1, w2, w3, w4, w5⟩ := resolve_winner (accumulateAll s rs)
    (by rw [q4]; decide) (by rw [q5]; decide)
  rw [q2] at w4 w5
  refine ⟨(resolve (accumulateAll s rs)).2, by rw [hrec], by rw [f1, q4], by rw [f2, q5],
    by rw [f3, q2], by rw [f4, q1], by rw [f5, q3], w2, w3, by rw [hrec]; exact w1.trans hpf,
    w4, w5, fun h1 => ?_⟩
  exact (w4 (by rw [h1]; decide)).1

/-! ## C14: a window spread over five labels -/

/-- C14 (as the code has it): for every window of 20 runs from a window
boundary in which five distinct labels win exactly 4 runs each, every count is
below `ERR_BUCKETS = 5` (hence below `MIN_BUCKETS = 10`), so
`entries_over_err = 0` and `entries_over_min = 0`, the verdict is NoWinner and
`prev_fails` goes up by one (modulo 256). -/
theorem spread_window_verdict (L : Nat) (hL : 0 < L) (s : State)
    (hs : s.times = List.replicate L 0) (hr : s.runs = 0) (rs : List ImpulseResult)
    (hlen : rs.length = 20) (hwf : ∀ r ∈ rs, r.classification.length = L)
    (ls : List Nat) (hnd : ls.Nodup) (h5 : ls.length = 5)
    (h4 : ∀ l ∈ ls, (winners rs).count l = 4) :
    ∃ v, (recordAll s rs).2 = List.replicate 19 none ++ [some v] ∧
      (∀ t ∈ v.counts, t < 5) ∧
      v.entries_over_err = 0 ∧ v.entries_over_min = 0 ∧
      v.outcome = [Outcome.NoWinner] ∧
      (recordAll s rs).1.prev_fails = (s.prev_fails + 1) % 256 ∧
      (s.prev_fails < 255 → (recordAll s rs).1.prev_fails = s.prev_fails + 1) := by
  obtain ⟨hrec, hlenL, htal, hsum, hpf⟩ := window_state L hL s hs hr rs hlen hwf
  have hwlen : (winners rs).length = 20 := by simp [winners, hlen]
  have hsum4 : (ls.map (fun l => (winners rs).count l)).sum = 20 := by
    have e : ls.map (fun l => (winners rs).count l) = List.replicate 5 4 := by
      apply List.eq_replicate_iff.mpr
      refine ⟨by simp [h5], fun x hx => ?_⟩
      obtain ⟨l, hl, rfl⟩ := List.mem_map.mp hx
      exact h4 l hl
    rw [e]
    decide
  have hle : ∀ i, (winners rs).count i ≤ 4 := by
    intro i
    by_cases hi : i ∈ ls
    · rw [h4 i hi]
    · have := sum_count_le_length (i :: ls) (List.nodup_cons.mpr ⟨hi, hnd⟩) (winners rs)
      rw [List.map_cons, List.sum_cons, hsum4, hwlen] at this
      omega
  have hvals : ∀ t ∈ (accumulateAll s rs).times, t < 5 := by
    intro t ht
    obtain ⟨i, _, hi⟩ := exists_getD_of_mem _ t ht
    rw [htal] at hi
    have := hle i
    omega
  obtain ⟨e1, e2⟩ := scanTimes_entries_exact (accumulateAll s rs).times hsum
  have c1 : (accumulateAll s rs).times.countP (fun t => decide (10 ≤ t)) = 0 := by
    rw [List.countP_eq_zero]
    intro t ht
    have := hvals t ht
    simp only [decide_eq_true_eq]
    omega
  have c2 : (accumulateAll s rs).times.countP (fun t => decide (5 ≤ t)) = 0 := by
    rw [List.countP_eq_zero]
    intro t ht
    have := hvals t ht
    simp only [decide_eq_true_eq]
    omega
  rw [c1] at e1
  rw [c2] at e2
  obtain ⟨f0, f1, f2, _⟩ := resolve_scan (accumulateAll s rs)
  have b := resolve_noWinner (accumulateAll s rs) e1
  have hp : (recordAll s rs).1.prev_fails = (s.prev_fails + 1) % 256 := by
    rw [hrec]
    show (resolve (accumulateAll s rs)).1.prev_fails = _
    rw [b.prev_fails, hpf]
  refine ⟨(resolve (accumulateAll s rs)).2, by rw [hrec], by rw [f0]; exact hvals,
    by rw [f2, e2], by rw [f1, e1], b.outcome, hp, fun hlt => ?_⟩
  rw [hp]
  exact Nat.mod_eq_of_lt (by omega)

set_option maxRecDepth 100000 in
/-- C14 fails as stated: in the window of an 8-label model in which labels
0..4 win 4 runs each, no count reaches `ERR_BUCKETS = 5` and
`entries_over_err` is 0, not 3 or more. -/
theorem spread_window_has_no_error_bucket :
    (verdicts (recordAll (initState 8) spreadWindow).2).map
        (fun v => (v.counts, v.entries_over_err, v.outcome))
      = [([4, 4, 4, 4, 4, 0, 0, 0], 0, [Outcome.NoWinner])] := by
  decide

/-! ## Reachable states and their verdicts -/

theorem initState_windowInv (L : Nat) : WindowInv L (initState L) := by
  refine ⟨by simp [initState], by simp [initState], (by decide : 0 < 20), fun i _ => ?_⟩
  show (List.replicate L 0).getD i 0 = 0
  by_cases hi : i < L
  · rw [List.getD_eq_getElem _ _ (by simpa using hi)]
    simp
  · rw [List.getD_eq_default _ _ (by simpa using hi)]

theorem record_windowInv (L : Nat) (hL : 0 < L) (s : State) (r : ImpulseResult)
    (hs : WindowInv L s) (hr : r.classification.length = L) :
    WindowInv L (record s r).1 := by
  obtain ⟨h1, h2, h3⟩ := record_invariant L hL s r hs.length hs.sum hs.runs hr
  refine ⟨h1, h2, h3, fun i hi => ?_⟩
  by_cases hge : CHECK_BUCKETS ≤ (accumulate s r).runs
  · rw [record_of_ge s r hge]
    show (resolve (accumulate s r)).1.times.getD i 0 = 0
    rw [(resolve_reset (accumulate s r)).1]
    by_cases hlt : i < (accumulate s r).times.length
    · rw [List.getD_eq_getElem _ _ (by simpa using hlt)]
      simp
    · rw [List.getD_eq_default _ _ (by simpa using hlt)]
  · rw [record_of_lt s r (Nat.not_le.mp hge)]
    show (incrAt s.times (largestIndex r)).getD i 0 = 0
    have := largestIndex_lt_256 r
    rw [incrAt_getD, if_neg (by omega)]
    exact hs.low i hi

theorem recordAll_windowInv (L : Nat) (hL : 0 < L) (rs : List ImpulseResult) :
    ∀ s : State, WindowInv L s → (∀ r ∈ rs, r.classification.length = L) →
      WindowInv L (recordAll s rs).1 := by
  induction rs with
  | nil => intro s hs _; exact hs
  | cons r rs ih =>
    intro s hs hwf
    exact ih (record s r).1 (record_windowInv L hL s r hs (hwf r (List.mem_cons_self r rs)))
      (fun r' hr' => hwf r' (List.mem_cons_of_mem r hr'))

/-- Every verdict in the return values of a run was returned by a call of
`record` on a state that satisfies the window invariant. -/
theorem recordAll_verdict_source (L : Nat) (hL : 0 < L) (rs : List ImpulseResult) :
    ∀ s : State, WindowInv L s → (∀ r ∈ rs, r.classification.length = L) →
      ∀ k v, (recordAll s rs).2.getD k none = some v →
        ∃ s' r, WindowInv L s' ∧ r.classification.length = L ∧ (record s' r).2 = some v := by
  induction rs with
  | nil =>
    intro s _ _ k v hv
    simp [recordAll] at hv
  | cons r rs ih =>
    intro s hs hwf k v hv
    have hrL := hwf r (List.mem_cons_self r rs)
    cases k with
    | zero =>
      simp only [recordAll, List.getD_cons_zero] at hv
      exact ⟨s, r, hs, hrL, hv⟩
    | succ k =>
      simp only [recordAll, List.getD_cons_succ] at hv
      exact ih (record s r).1 (record_windowInv L hL s r hs hrL)
        (fun r' hr' => hwf r' (List.mem_cons_of_mem r hr')) k v hv

/-- The state that a verdict is resolved from: 20 runs counted, in an array
of `L` counts that are zero from index 256 on. -/
theorem verdict_state (L : Nat) (hL : 0 < L) (s : State) (r : ImpulseResult) (v : Verdict)
    (hs : WindowInv L s) (hr : r.classification.length = L) (hv : (record s r).2 = some v) :
    v = (resolve (accumulate s r)).2 ∧ v.counts = (accumulate s r).times ∧
    v.counts.length = L ∧ v.counts.sum = 20 ∧
    (∀ i, 256 ≤ i → v.counts.getD i 0 = 0) := by
  obtain ⟨hge, _, hveq⟩ := record_some s r v hv
  obtain ⟨h1, h2⟩ := accumulate_sum L hL s r hs.length hs.sum hs.runs hr
  have hc : v.counts = (accumulate s r).times := by
    rw [hveq]
    exact (resolve_scan (accumulate s r)).1
  have h20 : s.runs < 20 := hs.runs
  have hge20 : 20 ≤ (accumulate s r).runs := hge
  refine ⟨hveq, hc, ?_, ?_, fun i hi => ?_⟩
  · rw [hc, accumulate_times_length, hs.length]
  · rw [hc, h1]
    omega
  · rw [hc]
    show (incrAt s.times (largestIndex r)).getD i 0 = 0
    have := largestIndex_lt_256 r
    rw [incrAt_getD, if_neg (by omega)]
    exact hs.low i hi

theorem scanTimes_max_id_lt (ts : List Nat) (h : 0 < ts.length) :
    (scanTimes ts).max_id < ts.length := by
  by_cases hex : ∃ t ∈ ts, t ≠ 0
  · obtain ⟨j, hj, _, _, _, hid, _⟩ := scanTimes_max ts hex
    rw [hid]
    exact lt_of_le_of_lt (Nat.mod_le j 256) hj
  · have hall : ∀ t ∈ ts, t ≤ scanInit.max_val := by
      intro t ht
      by_contra hcon
      exact hex ⟨t, ht, fun e => hcon (by rw [e]; exact Nat.zero_le _)⟩
    have := ((scanLoop_max ts 0 scanInit (by decide)).1 hall).2.1
    have e : (scanTimes ts).max_id = 0 := this
    rw [e]
    exact h

/-! ## C15: no access out of bounds -/

/-- C15: in every state reached from the initial state of a model with
`L >= 1` labels, for every result with `L` scores, `record` returns either no
verdict or a verdict, the winning index whose count it increments is below
`L`, the length of `times`, and the `max_id` of the verdict, used to look up
the label of the winner, is below `L` too.  The bound `L <= 255` of the claim
is not needed. -/
theorem record_stays_in_bounds (L : Nat) (hL : 1 ≤ L) (rs : List ImpulseResult)
    (hwf : ∀ r ∈ rs, r.classification.length = L) (r : ImpulseResult)
    (hr : r.classification.length = L) :
    (recordAll (initState L) rs).1.times.length = L ∧
    largestIndex r < L ∧
    ((record (recordAll (initState L) rs).1 r).2 = none ∨
      ∃ v, (record (recordAll (initState L) rs).1 r).2 = some v ∧
        v.counts.length = L ∧ v.max_id < L) := by
  have hinv := recordAll_windowInv L hL rs (initState L) (initState_windowInv L) hwf
  refine ⟨hinv.length, by rw [← hr]; exact largestIndex_lt r (by omega), ?_⟩
  cases hv : (record (recordAll (initState L) rs).1 r).2 with
  | none => exact Or.inl rfl
  | some v =>
    obtain ⟨hveq, hc, hlen, _, _⟩ := verdict_state L hL _ r v hinv hr hv
    refine Or.inr ⟨v, rfl, hlen, ?_⟩
    have hid : v.max_id = (scanTimes v.counts).max_id := by
      rw [hc, hveq]
      exact (resolve_scan _).2.2.2.1
    rw [hid]
    have := scanTimes_max_id_lt v.counts (by omega)
    omega

/-! ## C16: the verdict is a function of the winning labels -/

theorem accumulateAll_times_congr (rs1 : List ImpulseResult) :
    ∀ (rs2 : List ImpulseResult) (s1 s2 : State), s1.times = s2.times →
      winners rs1 = winners rs2 →
      (accumulateAll s1 rs1).times = (accumulateAll s2 rs2).times := by
  induction rs1 with
  | nil =>
    intro rs2 s1 s2 ht hw
    cases rs2 with
    | nil => exact ht
    | cons r2 rs2 => simp [winners] at hw
  | cons r1 rs1 ih =>
    intro rs2 s1 s2 ht hw
    cases rs2 with
    | nil => simp [winners] at hw
    | cons r2 rs2 =>
      simp only [winners, List.map_cons, List.cons.injEq] at hw
      apply ih rs2 (accumulate s1 r1) (accumulate s2 r2) _ hw.2
      show incrAt s1.times (largestIndex r1) = incrAt s2.times (largestIndex r2)
      rw [ht, hw.1]

/-- The verdict of a resolution depends on the counts alone, apart from the
two failure flags and the timings; the failure flags depend on the counts and
on `prev_fails`. -/
theorem resolve_congr (s1 s2 : State) (ht : s1.times = s2.times) :
    (resolve s1).2.counts = (resolve s2).2.counts ∧
    (resolve s1).2.entries_over_min = (resolve s2).2.entries_over_min ∧
    (resolve s1).2.entries_over_err = (resolve s2).2.entries_over_err ∧
    (resolve s1).2.max_id = (resolve s2).2.max_id ∧
    (resolve s1).2.max_val = (resolve s2).2.max_val ∧
    (resolve s1).2.max_dup = (resolve s2).2.max_dup ∧
    (resolve s1).2.outcome = (resolve s2).2.outcome ∧
    (resolve s1).2.good_pass = (resolve s2).2.good_pass ∧
    (resolve s1).2.bad_pass = (resolve s2).2.bad_pass ∧
    (s1.prev_fails = s2.prev_fails →
      (resolve s1).2.high_fail = (resolve s2).2.high_fail ∧
      (resolve s1).2.single_fail = (resolve s2).2.single_fail ∧
      (resolve s1).1.prev_fails = (resolve s2).1.prev_fails) := by
  obtain ⟨a1, a2, a3, a4, a5, a6, _⟩ := resolve_scan s1
  obtain ⟨b1, b2, b3, b4, b5, b6, _⟩ := resolve_scan s2
  refine ⟨by rw [a1, b1, ht], by rw [a2, b2, ht], by rw [a3, b3, ht], by rw [a4, b4, ht],
    by rw [a5, b5, ht], by rw [a6, b6, ht], ?_⟩
  rcases resolve_cases s1 with ⟨c1, x⟩ | ⟨c1, c2, x⟩ | ⟨c1, c2, c3, x⟩ | ⟨c1, c2, c3, x⟩
  · have y := resolve_noWinner s2 (by rw [← ht]; exact c1)
    refine ⟨by rw [x.outcome, y.outcome], by rw [x.good_pass, y.good_pass],
      by rw [x.bad_pass, y.bad_pass], fun hp => ?_⟩
    refine ⟨?_, ?_, by rw [x.prev_fails, y.prev_fails, hp]⟩
    · rw [Bool.eq_iff_iff, x.high_fail, y.high_fail, hp]
    · rw [Bool.eq_iff_iff, x.single_fail, y.single_fail, hp]
  · have y := resolve_ambiguous s2 (by rw [← ht]; exact c1) (by rw [← ht]; exact c2)
    refine ⟨by rw [x.outcome, y.outcome], by rw [x.good_pass, y.good_pass],
      by rw [x.bad_pass, y.bad_pass], fun hp => ?_⟩
    refine ⟨?_, ?_, by rw [x.prev_fails, y.prev_fails, hp]⟩
    · rw [Bool.eq_iff_iff, x.high_fail, y.high_fail, hp]
    · rw [Bool.eq_iff_iff, x.single_fail, y.single_fail, hp]
  · have y := resolve_good s2 (by rw [← ht]; exact c1) (by rw [← ht]; exact c2)
      (by rw [← ht]; exact c3)
    exact ⟨by rw [x.outcome, y.outcome], by rw [x.good_pass, y.good_pass],
      by rw [x.bad_pass, y.bad_pass], fun hp =>
        ⟨by rw [x.high_fail, y.high_fail], by rw [x.single_fail, y.single_fail],
         by rw [x.prev_fails, y.prev_fails, hp]⟩⟩
  · have y := resolve_bad s2 (by rw [← ht]; exact c1) (by rw [← ht]; exact c2)
      (by rw [← ht]; exact c3)
    exact ⟨by rw [x.outcome, y.outcome], by rw [x.good_pass, y.good_pass],
      by rw [x.bad_pass, y.bad_pass], fun hp =>
        ⟨by rw [x.high_fail, y.high_fail], by rw [x.single_fail, y.single_fail],
         by rw [x.prev_fails, y.prev_fails, hp]⟩⟩

/-- C16: for two states at a window boundary of a model with `L` labels and
two sequences of 20 results whose winning labels agree position by position
(scores, timings and `total_runs` may differ), both windows end with a
verdict, and the two verdicts agree on the per-label counts, `max_id`,
`max_val`, `max_dup`, `entries_over_min`, `entries_over_err`, the base
classification and `good_pass` / `bad_pass` whatever the prior values of
`prev_fails`; when these are equal the verdicts also agree on `high_fail` and
`single_fail`, and `prev_fails` is the same afterwards. -/
theorem window_verdict_determined_by_winners (L : Nat) (s1 s2 : State)
    (rs1 rs2 : List ImpulseResult)
    (ht1 : s1.times = List.replicate L 0) (ht2 : s2.times = List.replicate L 0)
    (hr1 : s1.runs = 0) (hr2 : s2.runs = 0)
    (hl1 : rs1.length = 20) (hl2 : rs2.length = 20)
    (hw : rs1.map largestIndex = rs2.map largestIndex) :
    ∃ v1 v2, (recordAll s1 rs1).2 = List.replicate 19 none ++ [some v1] ∧
      (recordAll s2 rs2).2 = List.replicate 19 none ++ [some v2] ∧
      v1.counts = v2.counts ∧
      v1.entries_over_min = v2.entries_over_min ∧
      v1.entries_over_err = v2.entries_over_err ∧
      v1.max_id = v2.max_id ∧ v1.max_val = v2.max_val ∧ v1.max_dup = v2.max_dup ∧
      v1.outcome = v2.outcome ∧
      v1.good_pass = v2.good_pass ∧ v1.bad_pass = v2.bad_pass ∧
      (s1.prev_fails = s2.prev_fails →
        v1.high_fail = v2.high_fail ∧ v1.single_fail = v2.single_fail ∧
        (recordAll s1 rs1).1.prev_fails = (recordAll s2 rs2).1.prev_fails) := by
  have e1 := recordAll_window s1 rs1 hr1 hl1
  have e2 := recordAll_window s2 rs2 hr2 hl2
  have ht : (accumulateAll s1 rs1).times = (accumulateAll s2 rs2).times :=
    accumulateAll_times_congr rs1 rs2 s1 s2 (by rw [ht1, ht2]) hw
  obtain ⟨c1, c2, c3, c4, c5, c6, c7, c8, c9, c10⟩ :=
    resolve_congr (accumulateAll s1 rs1) (accumulateAll s2 rs2) ht
  refine ⟨(resolve (accumulateAll s1 rs1)).2, (resolve (accumulateAll s2 rs2)).2,
    by rw [e1], by rw [e2], c1, c2, c3, c4, c5, c6, c7, c8, c9, fun hp => ?_⟩
  have hp' : (accumulateAll s1 rs1).prev_fails = (accumulateAll s2 rs2).prev_fails := by
    rw [(accumulateAll_frame rs1 s1).1, (accumulateAll_frame rs2 s2).1, hp]
  obtain ⟨d1, d2, d3⟩ := c10 hp'
  refine ⟨d1, d2, ?_⟩
  rw [e1, e2]
  exact d3

/-- The verdict is NoWinner exactly when `entries_over_min` is 0. -/
theorem base_cases (s : State) (r : ImpulseResult) (v : Verdict)
    (h : (record s r).2 = some v) :
    (v.entries_over_min = 0 ↔ v.outcome = [Outcome.NoWinner]) ∧
    (v.outcome = [Outcome.NoWinner] ∨ v.outcome = [Outcome.Ambiguous] ∨
      v.outcome = [Outcome.GoodFrequency] ∨ v.outcome = [Outcome.BadFrequency]) := by
  refine ⟨?_, record_outcome s r v h⟩
  obtain ⟨_, _, hv⟩ := record_some s r v h
  rw [hv, (resolve_scan (accumulate s r)).2.1]
  rcases resolve_cases (accumulate s r) with ⟨c1, b⟩ | ⟨c1, _, b⟩ | ⟨c1, _, _, b⟩ |
      ⟨c1, _, _, b⟩
  · simp [c1, b.outcome]
  · simp [c1, b.outcome]
  · simp [c1, b.outcome]
  · simp [c1, b.outcome]

/-! ## C19: what makes a window ambiguous -/

/-- When the weighted tallies use up the whole sum, every count is 0, 5 or
10. -/
theorem weighted_eq_values (ts : List Nat) :
    5 * ts.countP (fun t => decide (5 ≤ t)) + 5 * ts.countP (fun t => decide (10 ≤ t))
        = ts.sum →
    ∀ t ∈ ts, t = 0 ∨ t = 5 ∨ t = 10 := by
  induction ts with
  | nil => intro _ t ht; simp at ht
  | cons x xs ih =>
    intro heq t ht
    have hle := weighted_tallies_le_sum xs
    simp only [List.countP_cons, decide_eq_true_eq, List.sum_cons] at heq
    have hx : x = 0 ∨ x = 5 ∨ x = 10 := by
      split_ifs at heq <;> omega
    have htail : 5 * xs.countP (fun t => decide (5 ≤ t))
        + 5 * xs.countP (fun t => decide (10 ≤ t)) = xs.sum := by
      split_ifs at heq <;> omega
    rcases List.mem_cons.mp ht with rfl | ht
    · exact hx
    · exact ih htail t ht

theorem tallies_of_values (ts : List Nat) (hv : ∀ t ∈ ts, t = 0 ∨ t = 5 ∨ t = 10) :
    ts.countP (fun t => decide (10 ≤ t)) = ts.count 10 ∧
    ts.countP (fun t => decide (5 ≤ t)) = ts.count 5 + ts.count 10 := by
  induction ts with
  | nil => simp
  | cons x xs ih =>
    obtain ⟨i1, i2⟩ := ih (fun t ht => hv t (List.mem_cons_of_mem x ht))
    have c10 : (x :: xs).count 10 = xs.count 10 + if x == 10 then 1 else 0 :=
      List.count_cons 10 x xs
    have c5 : (x :: xs).count 5 = xs.count 5 + if x == 5 then 1 else 0 :=
      List.count_cons 5 x xs
    simp only [List.countP_cons, decide_eq_true_eq, i1, i2, c10, c5]
    rcases hv x (List.mem_cons_self x xs) with h | h | h <;> subst h <;> simp <;> omega

theorem countP_filter_nonzero (ts : List Nat) (c : Nat) (hc : 0 < c) :
    (ts.filter (fun t => decide (t ≠ 0))).countP (fun t => decide (c ≤ t))
      = ts.countP (fun t => decide (c ≤ t)) := by
  rw [List.countP_filter]
  apply List.countP_congr
  intro x _
  simp only [Bool.and_eq_true, decide_eq_true_eq]
  constructor
  · intro h; exact h.1
  · intro h; exact ⟨h, by omega⟩

/-- Counts that sum to 20 have a count of 10 or more and at least three
counts of 5 or more exactly when the non-zero counts are 10, 5 and 5. -/
theorem ambiguous_counts (ts : List Nat) (hsum : ts.sum = 20) :
    (ts.countP (fun t => decide (10 ≤ t)) ≠ 0 ∧ 3 ≤ ts.countP (fun t => decide (5 ≤ t))) ↔
    (ts.filter (fun t => decide (t ≠ 0))).Perm [10, 5, 5] := by
  have hw := weighted_tallies_le_sum ts
  constructor
  · rintro ⟨h1, h2⟩
    have hvals := weighted_eq_values ts (by omega)
    obtain ⟨t1, t2⟩ := tallies_of_values ts hvals
    rw [List.perm_iff_count]
    intro a
    by_cases ha0 : a = 0
    · subst ha0
      rw [List.count_eq_zero_of_not_mem (by simp)]
      decide
    · rw [List.count_filter (by simpa using ha0)]
      by_cases ha10 : a = 10
      · subst ha10
        simp only [List.count_cons_self, List.count_nil]
        rw [List.count_cons_of_ne (by decide), List.count_cons_of_ne (by decide)]
        simp only [List.count_nil]
        omega
      · by_cases ha5 : a = 5
        · subst ha5
          rw [List.count_cons_of_ne (by decide)]
          simp only [List.count_cons_self, List.count_nil]
          omega
        · have hnot : a ∉ ts := by
            intro hmem
            rcases hvals a hmem with h | h | h <;> omega
          rw [List.count_eq_zero_of_not_mem hnot]
          symm
          apply List.count_eq_zero_of_not_mem
          simp only [List.mem_cons, List.mem_singleton, List.not_mem_nil, or_false, not_or]
          exact ⟨ha10, ha5, ha5⟩
  · intro hperm
    have p10 := hperm.countP_eq (fun t => decide (10 ≤ t))
    have p5 := hperm.countP_eq (fun t => decide (5 ≤ t))
    rw [countP_filter_nonzero ts 10 (by decide)] at p10
    rw [countP_filter_nonzero ts 5 (by decide)] at p5
    have e10 : [10, 5, 5].countP (fun t => decide (10 ≤ t)) = 1 := by decide
    have e5 : [10, 5, 5].countP (fun t => decide (5 ≤ t)) = 3 := by decide
    rw [e10] at p10
    rw [e5] at p5
    omega

/-- C19: for every verdict returned along a run from the initial state of a
model with `L >= 1` labels, the counts sum to 20 and the verdict is Ambiguous
if and only if the non-zero counts are 10, 5 and 5 in some order, that is,
exactly three labels have a non-zero count; with any other counts the verdict
is NoWinner, GoodFrequency or BadFrequency. -/
theorem ambiguous_iff_ten_five_five (L : Nat) (hL : 1 ≤ L) (rs : List ImpulseResult)
    (hwf : ∀ r ∈ rs, r.classification.length = L) (k : Nat) (v : Verdict)
    (hv : (recordAll (initState L) rs).2.getD k none = some v) :
    v.counts.sum = 20 ∧
    (v.outcome = [Outcome.Ambiguous] ↔
      (v.counts.filter (fun t => decide (t ≠ 0))).Perm [10, 5, 5]) ∧
    (¬ (v.counts.filter (fun t => decide (t ≠ 0))).Perm [10, 5, 5] →
      v.outcome = [Outcome.NoWinner] ∨ v.outcome = [Outcome.GoodFrequency] ∨
      v.outcome = [Outcome.BadFrequency]) := by
  obtain ⟨s', r, hinv, hr, hrec⟩ :=
    recordAll_verdict_source L hL rs (initState L) (initState_windowInv L) hwf k v hv
  obtain ⟨hveq, hc, _, hsum, _⟩ := verdict_state L hL s' r v hinv hr hrec
  obtain ⟨e1, e2⟩ := scanTimes_entries_exact v.counts hsum
  have hfc : ERR_BUCKETS_FAIL_COUNT = 3 := rfl
  have hamb : v.outcome = [Outcome.Ambiguous] ↔
      (v.counts.countP (fun t => decide (10 ≤ t)) ≠ 0 ∧
        3 ≤ v.counts.countP (fun t => decide (5 ≤ t))) := by
    rw [← e1, ← e2, hc, hveq]
    rcases resolve_cases (accumulate s' r) with ⟨c1, b⟩ | ⟨c1, c2, b⟩ | ⟨c1, c2, c3, b⟩ |
        ⟨c1, c2, c3, b⟩
    · rw [b.outcome]
      simp [c1]
    · rw [b.outcome]
      rw [hfc] at c2
      simp only [true_iff]
      exact ⟨c1, c2⟩
    · rw [b.outcome]
      rw [hfc] at c2
      simp only [List.cons.injEq, reduceCtorEq, and_true, false_iff, not_and]
      intro _
      omega
    · rw [b.outcome]
      rw [hfc] at c2
      simp only [List.cons.injEq, reduceCtorEq, and_true, false_iff, not_and]
      intro _
      omega
  have hiff := hamb.trans (ambiguous_counts v.counts hsum)
  refine ⟨hsum, hiff, fun hnot => ?_⟩
  have hna : v.outcome ≠ [Outcome.Ambiguous] := fun e => hnot (hiff.mp e)
  rcases record_outcome s' r v hrec with h | h | h | h
  · exact Or.inl h
  · exact absurd h hna
  · exact Or.inr (Or.inl h)
  · exact Or.inr (Or.inr h)

/-! ## C20: bounds on the tallies -/

/-- C20: for every verdict returned along a run from the initial state of a
model with `L >= 1` labels: if it is GoodFrequency or BadFrequency then
`max_id` won `max_val >= 10` of the 20 runs, `max_dup <= 2` and
`entries_over_min <= 2`; and in every case
`entries_over_min <= entries_over_err <= 4`. -/
theorem clear_winner_has_ten_runs (L : Nat) (hL : 1 ≤ L) (rs : List ImpulseResult)
    (hwf : ∀ r ∈ rs, r.classification.length = L) (k : Nat) (v : Verdict)
    (hv : (recordAll (initState L) rs).2.getD k none = some v) :
    ((v.outcome = [Outcome.GoodFrequency] ∨ v.outcome = [Outcome.BadFrequency]) →
      10 ≤ v.max_val ∧ v.counts.getD v.max_id 0 = v.max_val ∧
      v.max_dup ≤ 2 ∧ v.entries_over_min ≤ 2) ∧
    v.entries_over_min ≤ v.entries_over_err ∧ v.entries_over_err ≤ 4 := by
  obtain ⟨s', r, hinv, hr, hrec⟩ :=
    recordAll_verdict_source L hL rs (initState L) (initState_windowInv L) hwf k v hv
  obtain ⟨hveq, hc, _, hsum, hlow⟩ := verdict_state L hL s' r v hinv hr hrec
  obtain ⟨e1, e2⟩ := scanTimes_entries_exact v.counts hsum
  obtain ⟨_, f1, f2, f3, f4, f5, _⟩ := resolve_scan (accumulate s' r)
  rw [← hveq, ← hc] at f1 f2 f3 f4 f5
  have hw := weighted_tallies_le_sum v.counts
  have hmono := countP_ge_mono v.counts
  have h10 := countP_mul_le_sum 10 v.counts
  refine ⟨fun ho => ?_, by rw [f1, f2, e1, e2]; exact hmono, by rw [f2, e2]; omega⟩
  have hmin : v.entries_over_min ≠ 0 := by
    have hp := (base_cases s' r v hrec).1
    intro h0
    rcases ho with h | h <;> rw [hp.mp h0] at h <;> simp at h
  have hpos : 0 < v.counts.countP (fun t => decide (10 ≤ t)) := by
    rw [← e1, ← f1]
    exact Nat.pos_of_ne_zero hmin
  obtain ⟨t, ht, ht10⟩ := List.countP_pos_iff.mp hpos
  have ht10' : 10 ≤ t := by simpa using ht10
  obtain ⟨j, hj, hjv, hmax, _, hid, hdup⟩ := scanTimes_max v.counts ⟨t, ht, by omega⟩
  have hval : 10 ≤ (scanTimes v.counts).max_val := le_trans ht10' (hmax t ht)
  have hj256 : j < 256 := by
    by_contra hge
    have := hlow j (by omega)
    rw [hjv] at this
    omega
  have hcnt : v.counts.count (scanTimes v.counts).max_val ≤ 2 := by
    have := count_le_countP_ge v.counts 10 _ hval
    omega
  refine ⟨by rw [f4]; exact hval, ?_, ?_, by rw [f1, e1]; omega⟩
  · rw [f3, f4, hid, Nat.mod_eq_of_lt hj256]
    exact hjv
  · rw [f5, hdup]
    exact le_trans (Nat.mod_le _ _) hcnt

/-! ## C6, C7: the scan at a window resolution -/

theorem exists_ne_zero_of_sum_pos (ts : List Nat) (h : 0 < ts.sum) : ∃ t ∈ ts, t ≠ 0 := by
  by_contra hcon
  have hall : ∀ t ∈ ts, t = 0 := by
    intro t ht
    by_contra hne
    exact hcon ⟨t, ht, hne⟩
  have : ts.sum = 0 := List.sum_eq_zero hall
  omega

theorem mem_of_getD_pos (ts : List Nat) (i : Nat) (h : 0 < ts.getD i 0) :
    i < ts.length ∧ ts.getD i 0 ∈ ts := by
  have hi : i < ts.length := by
    by_contra hge
    rw [List.getD_eq_default _ _ (by omega)] at h
    omega
  exact ⟨hi, getD_mem ts i hi⟩

/-- C6: at every window resolution, that is for every verdict returned along
a run from the initial state of a model with `L >= 1` labels, the counts have
a non-zero entry and the scan of lines 187-202 yields `max_val` = the maximum
count, `max_id` = the lowest label index whose count equals that maximum, and
`max_dup` = the number of labels whose count equals that maximum, wherever the
first non-zero count sits and whatever `L` is. -/
theorem scan_finds_first_maximum (L : Nat) (hL : 1 ≤ L) (rs : List ImpulseResult)
    (hwf : ∀ r ∈ rs, r.classification.length = L) (k : Nat) (v : Verdict)
    (hv : (recordAll (initState L) rs).2.getD k none = some v) :
    (∃ t ∈ v.counts, t ≠ 0) ∧
    v.max_val = (scanTimes v.counts).max_val ∧
    v.max_id = (scanTimes v.counts).max_id ∧
    v.max_dup = (scanTimes v.counts).max_dup ∧
    v.max_id < v.counts.length ∧
    v.counts.getD v.max_id 0 = v.max_val ∧
    (∀ t ∈ v.counts, t ≤ v.max_val) ∧
    (∀ i, i < v.max_id → v.counts.getD i 0 < v.max_val) ∧
    v.max_dup = v.counts.count v.max_val := by
  obtain ⟨s', r, hinv, hr, hrec⟩ :=
    recordAll_verdict_source L hL rs (initState L) (initState_windowInv L) hwf k v hv
  obtain ⟨hveq, hc, _, hsum, hlow⟩ := verdict_state L hL s' r v hinv hr hrec
  obtain ⟨_, _, _, f3, f4, f5, _⟩ := resolve_scan (accumulate s' r)
  rw [← hveq, ← hc] at f3 f4 f5
  have hex := exists_ne_zero_of_sum_pos v.counts (by rw [hsum]; decide)
  obtain ⟨j, hj, hjv, hmax, hfirst, hid, hdup⟩ := scanTimes_max v.counts hex
  have hpos : 0 < (scanTimes v.counts).max_val := by
    obtain ⟨t, ht, hne⟩ := hex
    exact lt_of_lt_of_le (Nat.pos_of_ne_zero hne) (hmax t ht)
  have hj256 : j < 256 := by
    by_contra hge
    have := hlow j (by omega)
    rw [hjv] at this
    omega
  have hidj : v.max_id = j := by
    rw [f3, hid]
    exact Nat.mod_eq_of_lt hj256
  have hcnt : v.counts.count (scanTimes v.counts).max_val ≤ 20 := by
    have h1 := count_le_countP_ge v.counts (scanTimes v.counts).max_val
      (scanTimes v.counts).max_val (Nat.le_refl _)
    have h2 := countP_mul_le_sum (scanTimes v.counts).max_val v.counts
    have h3 := Nat.le_mul_of_pos_right
      (v.counts.countP (fun t => decide ((scanTimes v.counts).max_val ≤ t))) hpos
    omega
  refine ⟨hex, f4, f3, f5, by rw [hidj]; exact hj, by rw [hidj, f4]; exact hjv,
    by rw [f4]; exact hmax, fun i hi => ?_, ?_⟩
  · rw [f4]
    exact hfirst i (by rw [← hidj]; exact hi)
  · rw [f5, f4, hdup]
    exact Nat.mod_eq_of_lt (by omega)

/-- C7: `MIN_BUCKETS = 20 / 2 = 10` and `ERR_BUCKETS = 20 / 4 = 5`, and at
every window resolution, that is for every verdict returned along a run from
the initial state of a model with `L >= 1` labels, `entries_over_min` is the
number of labels whose count is `>= 10` and `entries_over_err` the number of
labels whose count is `>= 5`: a label with exactly 10 wins is tallied in
`entries_over_min` and one with exactly 5 in `entries_over_err`, while a
window whose counts stay at 9 or less has `entries_over_min = 0` and one whose
counts stay at 4 or less has `entries_over_err = 0`. -/
theorem tallies_count_labels_over_thresholds (L : Nat) (hL : 1 ≤ L)
    (rs : List ImpulseResult) (hwf : ∀ r ∈ rs, r.classification.length = L) (k : Nat)
    (v : Verdict) (hv : (recordAll (initState L) rs).2.getD k none = some v) :
    CHECK_BUCKETS = 20 ∧ MIN_BUCKETS = 10 ∧ ERR_BUCKETS = 5 ∧
    MIN_BUCKETS = CHECK_BUCKETS / 2 ∧ ERR_BUCKETS = CHECK_BUCKETS / 4 ∧
    v.entries_over_min = (scanTimes v.counts).entries_over_min ∧
    v.entries_over_err = (scanTimes v.counts).entries_over_err ∧
    v.entries_over_min = v.counts.countP (fun t => decide (10 ≤ t)) ∧
    v.entries_over_err = v.counts.countP (fun t => decide (5 ≤ t)) ∧
    (∀ i, v.counts.getD i 0 = 10 → 1 ≤ v.entries_over_min) ∧
    (∀ i, v.counts.getD i 0 = 5 → 1 ≤ v.entries_over_err) ∧
    ((∀ t ∈ v.counts, t ≤ 9) → v.entries_over_min = 0) ∧
    ((∀ t ∈ v.counts, t ≤ 4) → v.entries_over_err = 0) := by
  obtain ⟨s', r, hinv, hr, hrec⟩ :=
    recordAll_verdict_source L hL rs (initState L) (initState_windowInv L) hwf k v hv
  obtain ⟨hveq, hc, _, hsum, _⟩ := verdict_state L hL s' r v hinv hr hrec
  obtain ⟨_, f1, f2, _⟩ := resolve_scan (accumulate s' r)
  rw [← hveq, ← hc] at f1 f2
  obtain ⟨e1, e2⟩ := scanTimes_entries_exact v.counts hsum
  have g1 : v.entries_over_min = v.counts.countP (fun t => decide (10 ≤ t)) := by rw [f1, e1]
  have g2 : v.entries_over_err = v.counts.countP (fun t => decide (5 ≤ t)) := by rw [f2, e2]
  refine ⟨rfl, rfl, rfl, rfl, rfl, f1, f2, g1, g2, fun i hi => ?_, fun i hi => ?_,
    fun hall => ?_, fun hall => ?_⟩
  · rw [g1]
    have hm := (mem_of_getD_pos v.counts i (by rw [hi]; decide)).2
    exact List.countP_pos_iff.mpr ⟨_, hm, by rw [hi]; decide⟩
  · rw [g2]
    have hm := (mem_of_getD_pos v.counts i (by rw [hi]; decide)).2
    exact List.countP_pos_iff.mpr ⟨_, hm, by rw [hi]; decide⟩
  · rw [g1, List.countP_eq_zero]
    intro t ht
    have := hall t ht
    simp only [decide_eq_true_eq]
    omega
  · rw [g2, List.countP_eq_zero]
    intro t ht
    have := hall t ht
    simp only [decide_eq_true_eq]
    omega

/-! ## C11: frame acquisition -/

theorem enabledAxes_length (c : AxisConfig) : (enabledAxes c).length = AXIS_ENABLED c := by
  rcases c with ⟨_ | _, _ | _, _ | _⟩ <;> rfl

theorem getD_set_zero (l : List ℚ) (i k : Nat) (v : ℚ) :
    (l.set i v)[k]?.getD 0 = if i = k ∧ i < l.length then v else l[k]?.getD 0 := by
  by_cases h1 : i = k
  · subst h1
    by_cases h2 : i < l.length
    · simp [h2]
    · have e1 : (l.set i v)[i]? = none :=
        List.getElem?_eq_none (by rw [List.length_set]; omega)
      rw [e1, if_neg (fun h => h2 h.2)]
      rw [List.getElem?_eq_none (by omega)]
  · rw [List.getElem?_set_ne h1, if_neg (fun h => h1 h.1)]

/-- One reading goes into the `AXIS_ENABLED` slots from `ix` on, one enabled
axis per slot in the order X, Y, Z; the other slots keep their content. -/
theorem storeSample_spec (c : AxisConfig) (a : Sample) (ix : Nat) (b : Frame)
    (h : ix + AXIS_ENABLED c ≤ b.features.length) :
    (storeSample c a ix b).features.length = b.features.length ∧
    (storeSample c a ix b).written
      = b.written ++ (List.range' ix (AXIS_ENABLED c)).zip (enabledAxes c) ∧
    (∀ k, k < ix ∨ ix + AXIS_ENABLED c ≤ k →
      (storeSample c a ix b).features.getD k 0 = b.features.getD k 0) ∧
    (∀ j, j < AXIS_ENABLED c →
      (storeSample c a ix b).features.getD (ix + j) 0
        = a.axis ((enabledAxes c).getD j Axis.X)) := by
  rcases c with ⟨_ | _, _ | _, _ | _⟩ <;>
    simp only [AXIS_ENABLED, storeSample, enabledAxes, Frame.store] at h ⊢ <;>
    simp at h ⊢
  all_goals (repeat' constructor)
  all_goals first
    | rfl
    | (intro k hk
       simp only [getD_set_zero, List.length_set, true_and]
       split_ifs <;> first | rfl | omega)
    | (intro j hj
       interval_cases j
       all_goals simp only [getD_set_zero, List.length_set, true_and, Nat.add_zero]
       all_goals split_ifs <;> first | rfl | omega)
    | (simp only [getD_set_zero, List.length_set, true_and]
       split_ifs <;> first | rfl | omega)

/-- The acquisition loop started at time-step `t` of a frame of `M`
time-steps, with the first `t` readings in place, ends with the whole frame in
place, provided the sensor delivers and the fuel covers the remaining
time-steps. -/
theorem acquireLoop_spec (c : AxisConfig) (hA : 0 < AXIS_ENABLED c) (M : Nat)
    (fetch : Nat → Option Sample) (samples : Nat → Sample)
    (hfetch : ∀ t, t < M → fetch t = some (samples t)) :
    ∀ (fuel t : Nat) (b : Frame), t ≤ M → M - t ≤ fuel →
      b.features.length = M * AXIS_ENABLED c →
      b.written.map Prod.fst = List.range (t * AXIS_ENABLED c) →
      (∀ e ∈ b.written, e.2 ∈ enabledAxes c) →
      (∀ u j, u < t → j < AXIS_ENABLED c →
        b.features.getD (u * AXIS_ENABLED c + j) 0
          = (samples u).axis ((enabledAxes c).getD j Axis.X)) →
      ∃ b', acquireLoop c (M * AXIS_ENABLED c) fetch fuel (t * AXIS_ENABLED c) t b
          = Acquired.frame b' ∧
        b'.features.length = M * AXIS_ENABLED c ∧
        b'.written.map Prod.fst = List.range (M * AXIS_ENABLED c) ∧
        (∀ e ∈ b'.written, e.2 ∈ enabledAxes c) ∧
        (∀ u j, u < M → j < AXIS_ENABLED c →
          b'.features.getD (u * AXIS_ENABLED c + j) 0
            = (samples u).axis ((enabledAxes c).getD j Axis.X)) := by
  intro fuel
  induction fuel with
  | zero =>
    intro t b htM hfuel hlen hw hax hval
    have htM' : t = M := by omega
    subst htM'
    refine ⟨b, ?_, hlen, hw, hax, hval⟩
    simp [acquireLoop]
  | succ fuel ih =>
    intro t b htM hfuel hlen hw hax hval
    by_cases hlt : t < M
    · have hix : t * AXIS_ENABLED c < M * AXIS_ENABLED c := Nat.mul_lt_mul_of_pos_right hlt hA
      have hroom : t * AXIS_ENABLED c + AXIS_ENABLED c ≤ b.features.length := by
        rw [hlen]
        calc t * AXIS_ENABLED c + AXIS_ENABLED c = (t + 1) * AXIS_ENABLED c := by
              rw [Nat.add_mul, Nat.one_mul]
          _ ≤ M * AXIS_ENABLED c := Nat.mul_le_mul_right _ hlt
      obtain ⟨s1, s2, s3, s4⟩ := storeSample_spec c (samples t) (t * AXIS_ENABLED c) b hroom
      have hstep : acquireLoop c (M * AXIS_ENABLED c) fetch (fuel + 1) (t * AXIS_ENABLED c) t b
          = acquireLoop c (M * AXIS_ENABLED c) fetch fuel ((t + 1) * AXIS_ENABLED c) (t + 1)
              (storeSample c (samples t) (t * AXIS_ENABLED c) b) := by
        simp only [acquireLoop, hix, if_true, hfetch t hlt]
        rw [Nat.add_mul, Nat.one_mul]
      rw [hstep]
      apply ih (t + 1) _ hlt (by omega) (by rw [s1, hlen])
      · rw [s2, List.map_append, hw, List.map_fst_zip _ _ (by simp [enabledAxes_length]),
          List.range_eq_range', List.range_eq_range', Nat.add_mul, Nat.one_mul]
        have := List.range'_append_1 0 (t * AXIS_ENABLED c) (AXIS_ENABLED c)
        rw [Nat.zero_add] at this
        rw [this, Nat.add_comm]
      · intro e he
        rw [s2] at he
        rcases List.mem_append.mp he with h1 | h1
        · exact hax e h1
        · exact (List.of_mem_zip (show (e.1, e.2) ∈ _ from h1)).2
      · intro u j hu hj
        by_cases hut : u < t
        · rw [s3 _ (Or.inl _), hval u j hut hj]
          calc u * AXIS_ENABLED c + j < u * AXIS_ENABLED c + AXIS_ENABLED c := by omega
            _ = (u + 1) * AXIS_ENABLED c := by rw [Nat.add_mul, Nat.one_mul]
            _ ≤ t * AXIS_ENABLED c := Nat.mul_le_mul_right _ hut
        · have hu' : u = t := by omega
          subst hu'
          exact s4 j hj
    · have htM' : t = M := by omega
      subst htM'
      refine ⟨b, ?_, hlen, hw, hax, hval⟩
      simp [acquireLoop]

/-- C11: for every configuration with at least one enabled axis
(`A = AXIS_ENABLED`), every frame size `N` that is a multiple of `A` and every
sensor that delivers the first `N / A` readings, the acquisition ends with a
full frame: the stores hit the slots `0, 1, ..., N - 1` in turn, each exactly
once, every store takes an enabled axis, and slot `t * A + j` holds the `j`-th
enabled axis, in the order X, Y, Z, of the `t`-th reading. -/
theorem frame_is_dense_and_ordered (c : AxisConfig) (hA : 0 < AXIS_ENABLED c) (N : Nat)
    (hN : AXIS_ENABLED c ∣ N) (fetch : Nat → Option Sample) (samples : Nat → Sample)
    (hfetch : ∀ t, t < N / AXIS_ENABLED c → fetch t = some (samples t))
    (features : List ℚ) (hlen : features.length = N) :
    (enabledAxes c).length = AXIS_ENABLED c ∧
    ∃ b, acquireFrame c N fetch features = Acquired.frame b ∧
      b.features.length = N ∧
      b.written.map Prod.fst = List.range N ∧
      (∀ e ∈ b.written, e.2 ∈ enabledAxes c) ∧
      (∀ t j, t < N / AXIS_ENABLED c → j < AXIS_ENABLED c →
        b.features.getD (t * AXIS_ENABLED c + j) 0
          = (samples t).axis ((enabledAxes c).getD j Axis.X)) := by
  refine ⟨enabledAxes_length c, ?_⟩
  obtain ⟨M, hM⟩ := hN
  have hMA : N = M * AXIS_ENABLED c := by rw [hM, Nat.mul_comm]
  have hdiv : N / AXIS_ENABLED c = M := by
    rw [hMA]
    exact Nat.mul_div_cancel M hA
  rw [hdiv] at hfetch
  rw [hdiv]
  have hfuel : M - 0 ≤ N := by
    rw [hMA]
    exact le_trans (Nat.sub_le M 0) (Nat.le_mul_of_pos_right M hA)
  have key := acquireLoop_spec c hA M fetch samples hfetch N 0
    { features := features, written := [] } (Nat.zero_le M) hfuel
    (by rw [← hMA]; exact hlen) (by simp) (by simp) (by intro u j hu; omega)
  rw [Nat.zero_mul, ← hMA] at key
  exact key

/-! ## C17: the sample period -/

theorem time_between_samples_us_eq (f : Int) (hf : 2 ≤ f) :
    time_between_samples_us f = 1000000 / (f - 1) := by
  unfold time_between_samples_us
  exact Int.tdiv_eq_ediv (by norm_num) (by omega)

/-- C17 (as the code has it): for every sampling frequency `f >= 2` the armed
period is `floor(1000000 / (f - 1))`, and for `f <= 1032` it is not shorter
than the nominal period, `period * f >= 1000000`. -/
theorem sample_period_not_below_nominal (f : Int) (hf : 2 ≤ f) :
    time_between_samples_us f = 1000000 / (f - 1) ∧
    time_between_samples_us f = Int.floor ((1000000 : ℚ) / ((f : ℚ) - 1)) ∧
    (f ≤ 1032 → 1000000 ≤ time_between_samples_us f * f) := by
  have heq := time_between_samples_us_eq f hf
  refine ⟨heq, ?_, fun hle => ?_⟩
  · obtain ⟨n, hn⟩ := Int.eq_ofNat_of_zero_le (show 0 ≤ f - 1 by omega)
    have h1 : ((f : ℚ) - 1) = (n : ℚ) := by
      have := congrArg (Int.cast : Int → ℚ) hn
      push_cast at this
      exact this
    have h2 := Rat.floor_intCast_div_natCast 1000000 n
    rw [heq, h1, hn]
    simpa using h2.symm
  · rw [heq]
    by_cases hsmall : f ≤ 1001
    · have hpos : 0 < f - 1 := by omega
      have hmod := Int.emod_lt_of_pos 1000000 hpos
      have hdiv := Int.ediv_add_emod 1000000 (f - 1)
      have hq : f - 1 ≤ 1000000 / (f - 1) := by
        rw [Int.le_ediv_iff_mul_le hpos]
        nlinarith
      nlinarith
    · have h2 : 1002 ≤ f := by omega
      interval_cases f <;> decide

/-- C17 fails as stated: at 1033 Hz the period is 968 microseconds, and 968
periods of 1033 samples fall short of one second. -/
theorem sample_period_below_nominal_at_1033 :
    time_between_samples_us 1033 = 968 ∧ time_between_samples_us 1033 * 1033 < 1000000 := by
  decide

/-- C17 at 100 Hz: the period is 10101 microseconds. -/
theorem sample_period_not_below_nominal_witness :
    (2 : Int) ≤ 100 ∧ time_between_samples_us 100 = 10101 ∧
    1000000 ≤ time_between_samples_us 100 * 100 :=
  ⟨by decide, by decide,
   (sample_period_not_below_nominal 100 (by decide)).2.2 (by decide)⟩

/-! ## C18: exactly one outcome flag -/

/-- C18: in every verdict returned by `record` exactly one of `good_pass`,
`bad_pass`, `high_fail`, `single_fail` is set: on a NoWinner or Ambiguous
window it is `high_fail` or `single_fail` and never both, on a
GoodFrequency or BadFrequency window it is `good_pass` or `bad_pass` and
never both. -/
theorem exactly_one_outcome_flag (s : State) (r : ImpulseResult) (v : Verdict)
    (h : (record s r).2 = some v) :
    [v.good_pass, v.bad_pass, v.high_fail, v.single_fail].count true = 1 ∧
    ¬ (v.high_fail = true ∧ v.single_fail = true) ∧
    ¬ (v.good_pass = true ∧ v.bad_pass = true) ∧
    ((v.high_fail = true ∨ v.single_fail = true) →
      v.good_pass = false ∧ v.bad_pass = false) ∧
    ((v.outcome = [Outcome.GoodFrequency] ∨ v.outcome = [Outcome.BadFrequency]) →
      (v.good_pass = true ∨ v.bad_pass = true)) := by
  obtain ⟨_, _, hv⟩ := record_some s r v h
  rw [hv]
  rcases resolve_cases (accumulate s r) with ⟨_, b⟩ | ⟨_, _, b⟩ | ⟨_, _, _, b⟩ | ⟨_, _, _, b⟩
  · rcases Nat.lt_or_ge (((accumulate s r).prev_fails + 1) % 256) ERR_FAILS_IN_ROW with c | c
    · have h1 := b.single_fail.mpr c
      have h2 : (resolve (accumulate s r)).2.high_fail = false := by
        cases e : (resolve (accumulate s r)).2.high_fail
        · rfl
        · exact absurd (b.high_fail.mp e) (Nat.not_le.mpr c)
      simp [b.outcome, b.good_pass, b.bad_pass, h1, h2]
    · have h1 := b.high_fail.mpr c
      have h2 : (resolve (accumulate s r)).2.single_fail = false := by
        cases e : (resolve (accumulate s r)).2.single_fail
        · rfl
        · exact absurd (b.single_fail.mp e) (Nat.not_lt.mpr c)
      simp [b.outcome, b.good_pass, b.bad_pass, h1, h2]
  · rcases Nat.lt_or_ge (((accumulate s r).prev_fails + 1) % 256) ERR_FAILS_IN_ROW with c | c
    · have h1 := b.single_fail.mpr c
      have h2 : (resolve (accumulate s r)).2.high_fail = false := by
        cases e : (resolve (accumulate s r)).2.high_fail
        · rfl
        · exact absurd (b.high_fail.mp e) (Nat.not_le.mpr c)
      simp [b.outcome, b.good_pass, b.bad_pass, h1, h2]
    · have h1 := b.high_fail.mpr c
      have h2 : (resolve (accumulate s r)).2.single_fail = false := by
        cases e : (resolve (accumulate s r)).2.single_fail
        · rfl
        · exact absurd (b.single_fail.mp e) (Nat.not_lt.mpr c)
      simp [b.outcome, b.good_pass, b.bad_pass, h1, h2]
  · simp [b.outcome, b.good_pass, b.bad_pass, b.high_fail, b.single_fail]
  · simp [b.outcome, b.good_pass, b.bad_pass, b.high_fail, b.single_fail]

/-- C18 on a third failed window in a row: only `high_fail` is set. -/
theorem exactly_one_outcome_flag_witness :
    (record nearlySpread (oneHot 8 4)).2 = some spreadVerdict ∧
    [spreadVerdict.good_pass, spreadVerdict.bad_pass, spreadVerdict.high_fail,
      spreadVerdict.single_fail].count true = 1 :=
  ⟨by decide,
   (exactly_one_outcome_flag nearlySpread (oneHot 8 4) spreadVerdict (by decide)).1⟩

/-! ## The theorems at sample inputs -/

set_option maxRecDepth 100000 in
/-- C1 on two windows of an 8-label model: nothing on call 19, a verdict on calls 20 and 40. -/
theorem verdict_exactly_on_multiples_of_window_witness :
    (initState 8).runs = 0 ∧
    (recordAll (initState 8) (unanimousWindow 1 ++ spreadWindow)).2.getD 18 none = none ∧
    ((recordAll (initState 8) (unanimousWindow 1 ++ spreadWindow)).2.getD 19 none).isSome ∧
    ((recordAll (initState 8) (unanimousWindow 1 ++ spreadWindow)).2.getD 39 none).isSome :=
  ⟨rfl,
   (verdict_exactly_on_multiples_of_window (initState 8) (unanimousWindow 1 ++ spreadWindow)
      rfl).2.2.2.1 18 (by decide) (by decide),
   (verdict_exactly_on_multiples_of_window (initState 8) (unanimousWindow 1 ++ spreadWindow)
      rfl).2.2.2.2 (by decide),
   ((verdict_exactly_on_multiples_of_window (initState 8) (unanimousWindow 1 ++ spreadWindow)
      rfl).2.2.1 39 (by decide)).mpr (by decide)⟩

/-- C2 on the window that label 1 wins 20 times out of 20. -/
theorem base_verdict_follows_policy_witness :
    (record nearlyUnanimous (oneHot 8 1)).2 = some unanimousVerdict ∧
    (unanimousVerdict.outcome = [Outcome.GoodFrequency] ↔
      0 < unanimousVerdict.entries_over_min ∧ unanimousVerdict.entries_over_err < 3 ∧
        unanimousVerdict.max_id ∈ [1, 3, 4, 5, 6]) :=
  ⟨by decide,
   (base_verdict_follows_policy nearlyUnanimous (oneHot 8 1) unanimousVerdict
      (by decide)).2.2.2.2.2.1⟩

/-- C3 on a result whose only positive score is at label 1. -/
theorem winning_label_is_first_positive_maximum_witness :
    ∃ j, j < (oneHot 8 1).classification.length ∧
      (∀ v ∈ (oneHot 8 1).classification, v ≤ (oneHot 8 1).classification.getD j 0) ∧
      (∀ k, k < j → (oneHot 8 1).classification.getD k 0
        < (oneHot 8 1).classification.getD j 0) ∧
      largestIndex (oneHot 8 1) = j % 256 ∧
      ((oneHot 8 1).classification.length ≤ 256 → largestIndex (oneHot 8 1) = j) :=
  (winning_label_is_first_positive_maximum (oneHot 8 1)).1 ⟨1, by decide, by decide⟩

/-- C5 on a third failed window in a row and on a window with a clear winner. -/
theorem high_fail_iff_streak_reached_witness :
    (record nearlySpread (oneHot 8 4)).2 = some spreadVerdict ∧
    (record nearlySpread (oneHot 8 4)).1.prev_fails = (nearlySpread.prev_fails + 1) % 256 ∧
    (spreadVerdict.high_fail = true ↔ 3 ≤ (record nearlySpread (oneHot 8 4)).1.prev_fails) ∧
    unanimousVerdict.high_fail = false :=
  ⟨by decide,
   ((high_fail_iff_streak_reached nearlySpread (oneHot 8 4) spreadVerdict (by decide)).2.1
      (Or.inl rfl)).1,
   ((high_fail_iff_streak_reached nearlySpread (oneHot 8 4) spreadVerdict (by decide)).2.1
      (Or.inl rfl)).2,
   (high_fail_iff_streak_reached nearlyUnanimous (oneHot 8 1) unanimousVerdict (by decide)).2.2
      (Or.inl rfl)⟩

set_option maxRecDepth 100000 in
/-- C8 after 39 calls on an 8-label model, and at the resolution of the second window. -/
theorem counts_sum_eq_runs_witness :
    (recordAll (initState 8) (spreadWindow ++ splitWindow.take 19)).1.times.sum
      = (recordAll (initState 8) (spreadWindow ++ splitWindow.take 19)).1.runs ∧
    (recordAll (initState 8) (spreadWindow ++ splitWindow.take 19)).1.runs < 20 ∧
    CHECK_BUCKETS
      ≤ (accumulate (recordAll (initState 8) (spreadWindow ++ splitWindow.take 19)).1
          (oneHot 8 2)).runs ∧
    (accumulate (recordAll (initState 8) (spreadWindow ++ splitWindow.take 19)).1
      (oneHot 8 2)).times.sum = 20 :=
  ⟨(counts_sum_eq_runs 8 (by decide) (spreadWindow ++ splitWindow.take 19) (by decide)).1,
   (counts_sum_eq_runs 8 (by decide) (spreadWindow ++ splitWindow.take 19) (by decide)).2.1,
   by decide,
   ((counts_sum_eq_runs 8 (by decide) (spreadWindow ++ splitWindow.take 19)
      (by decide)).2.2 (oneHot 8 2) rfl).2 (by decide)⟩

/-- C9 on the call that completes the window that label 1 wins 20 times. -/
theorem verdict_call_resets_window_witness :
    (record nearlyUnanimous (oneHot 8 1)).2 = some unanimousVerdict ∧
    (∀ t ∈ (record nearlyUnanimous (oneHot 8 1)).1.times, t = 0) ∧
    (record nearlyUnanimous (oneHot 8 1)).1.times.length = nearlyUnanimous.times.length ∧
    (record nearlyUnanimous (oneHot 8 1)).1.runs = 0 ∧
    (record nearlyUnanimous (oneHot 8 1)).1.run_time_dsp = 0 ∧
    (record nearlyUnanimous (oneHot 8 1)).1.run_time_classification = 0 ∧
    (record nearlyUnanimous (oneHot 8 1)).1.total_runs
      = (nearlyUnanimous.total_runs + 1) % 2 ^ 32 :=
  ⟨by decide,
   verdict_call_resets_window nearlyUnanimous (oneHot 8 1) unanimousVerdict (by decide)⟩

set_option maxRecDepth 100000 in
/-- C10 on a first call, on the call that completes a third failed window, and on three windows resolving NoWinner, Ambiguous, NoWinner. -/
theorem streak_persists_across_windows_witness :
    ((record (initState 8) (oneHot 8 1)).2 = none ∧
      (record (initState 8) (oneHot 8 1)).1.prev_fails = (initState 8).prev_fails) ∧
    ((record nearlySpread (oneHot 8 4)).2 = some spreadVerdict ∧
      (record nearlySpread (oneHot 8 4)).1.prev_fails = nearlySpread.prev_fails + 1 ∧
      (record nearlySpread (oneHot 8 4)).1.runs = 0) ∧
    ((verdicts (recordAll (initState 8) (spreadWindow ++ splitWindow ++ spreadWindow)).2).map
        Verdict.outcome = [[Outcome.NoWinner], [Outcome.Ambiguous], [Outcome.NoWinner]] ∧
      (recordAll (initState 8) (spreadWindow ++ splitWindow ++ spreadWindow)).1.prev_fails
        = 3) :=
  ⟨⟨by decide,
    (streak_persists_across_windows (initState 8) (oneHot 8 1) []).1 (by decide)⟩,
   ⟨by decide,
    (streak_persists_across_windows nearlySpread (oneHot 8 4) []).2.1 spreadVerdict
      (by decide) (Or.inl rfl) (by decide)⟩,
   ⟨by decide,
    (streak_persists_across_windows (initState 8) (oneHot 8 1)
      (spreadWindow ++ splitWindow ++ spreadWindow)).2.2 rfl (by decide)⟩⟩


/-- C11 on a frame of two readings with the X and Z axes enabled: the four
slots are written in turn and hold x0, z0, x1, z1. -/
theorem frame_is_dense_and_ordered_witness :
    (acquireFrame axesXZ 4 rampSensor [0, 0, 0, 0]).features = [0, 20, 1, 21] ∧
    ∃ b, acquireFrame axesXZ 4 rampSensor [0, 0, 0, 0] = Acquired.frame b ∧
      b.features.length = 4 ∧
      b.written.map Prod.fst = List.range 4 ∧
      (∀ e ∈ b.written, e.2 ∈ enabledAxes axesXZ) ∧
      (∀ t j, t < 4 / AXIS_ENABLED axesXZ → j < AXIS_ENABLED axesXZ →
        b.features.getD (t * AXIS_ENABLED axesXZ + j) 0
          = (rampSample t).axis ((enabledAxes axesXZ).getD j Axis.X)) :=
  ⟨by decide,
   (frame_is_dense_and_ordered axesXZ (by decide) 4 (by decide) rampSensor rampSample
      (fun _ _ => rfl) [0, 0, 0, 0] rfl).2⟩

set_option maxRecDepth 100000 in
/-- C12 on the window of an 8-label model that label 1 wins 20 times. -/
theorem unanimous_window_verdict_witness :
    ∃ v, (recordAll (initState 8) (unanimousWindow 1)).2 = List.replicate 19 none ++ [some v] ∧
      v.max_id = 1 ∧ v.max_val = 20 ∧ v.max_dup = 1 ∧
      v.entries_over_min = 1 ∧ v.entries_over_err = 1 ∧
      v.high_fail = false ∧ v.single_fail = false ∧
      (1 ∈ [1, 3, 4, 5, 6] →
        v.outcome = [Outcome.GoodFrequency] ∧ v.good_pass = true ∧ v.bad_pass = false) ∧
      (1 ∉ [1, 3, 4, 5, 6] →
        v.outcome = [Outcome.BadFrequency] ∧ v.good_pass = false ∧ v.bad_pass = true) ∧
      (1 = 1 → v.outcome = [Outcome.GoodFrequency]) :=
  unanimous_window_verdict 8 1 (by decide) (initState 8) rfl rfl (unanimousWindow 1)
    (by decide) (by decide) (by decide)

set_option maxRecDepth 100000 in
/-- C13 on the window of an 8-label model that labels 7 and 1 win in turn. -/
theorem even_split_window_verdict_witness :
    (winners alternatingWindow).count 1 = 10 ∧ (winners alternatingWindow).count 7 = 10 ∧
    ∃ v, (recordAll (initState 8) alternatingWindow).2 = List.replicate 19 none ++ [some v] ∧
      v.entries_over_min = 2 ∧ v.entries_over_err = 2 ∧
      v.max_id = 1 ∧ v.max_val = 10 ∧ v.max_dup = 2 ∧
      v.high_fail = false ∧ v.single_fail = false ∧
      (recordAll (initState 8) alternatingWindow).1.prev_fails = (initState 8).prev_fails ∧
      (1 ∈ [1, 3, 4, 5, 6] →
        v.outcome = [Outcome.GoodFrequency] ∧ v.good_pass = true ∧ v.bad_pass = false) ∧
      (1 ∉ [1, 3, 4, 5, 6] →
        v.outcome = [Outcome.BadFrequency] ∧ v.good_pass = false ∧ v.bad_pass = true) ∧
      (1 = 1 → v.outcome = [Outcome.GoodFrequency]) :=
  ⟨by decide, by decide,
   even_split_window_verdict 8 1 7 (by decide) (by decide) (initState 8) rfl rfl
     alternatingWindow (by decide) (by decide) (by decide) (by decide)⟩

set_option maxRecDepth 100000 in
/-- C14 on the window of an 8-label model in which labels 0..4 win 4 runs
each, in rotation. -/
theorem spread_window_verdict_witness :
    ∃ v, (recordAll (initState 8) spreadWindow).2 = List.replicate 19 none ++ [some v] ∧
      (∀ t ∈ v.counts, t < 5) ∧
      v.entries_over_err = 0 ∧ v.entries_over_min = 0 ∧
      v.outcome = [Outcome.NoWinner] ∧
      (recordAll (initState 8) spreadWindow).1.prev_fails = ((initState 8).prev_fails + 1) % 256 ∧
      ((initState 8).prev_fails < 255 →
        (recordAll (initState 8) spreadWindow).1.prev_fails = (initState 8).prev_fails + 1) :=
  spread_window_verdict 8 (by decide) (initState 8) rfl rfl spreadWindow (by decide)
    (by decide) [0, 1, 2, 3, 4] (by decide) rfl (by decide)

set_option maxRecDepth 100000 in
/-- C15 in the middle of a window and on the call that completes one. -/
theorem record_stays_in_bounds_witness :
    largestIndex (oneHot 8 2) < 8 ∧
    (∃ v, (record (recordAll (initState 8) (splitWindow.take 19)).1 (oneHot 8 2)).2 = some v ∧
      v.counts.length = 8 ∧ v.max_id < 8) :=
  ⟨(record_stays_in_bounds 8 (by decide) (splitWindow.take 7) (by decide) (oneHot 8 2)
      rfl).2.1,
   ((record_stays_in_bounds 8 (by decide) (splitWindow.take 19) (by decide) (oneHot 8 2)
      rfl).2.2).resolve_left (by decide)⟩

set_option maxRecDepth 100000 in
/-- C16 on two windows that label 1 wins 20 times, with different scores and
timings, from boundary states with different `prev_fails` and `total_runs`. -/
theorem window_verdict_determined_by_winners_witness :
    ∃ v1 v2,
      (recordAll (initState 8) (unanimousWindow 1)).2 = List.replicate 19 none ++ [some v1] ∧
      (recordAll laterBoundary (List.replicate 20 (peaked 8 1))).2
        = List.replicate 19 none ++ [some v2] ∧
      v1.counts = v2.counts ∧
      v1.entries_over_min = v2.entries_over_min ∧
      v1.entries_over_err = v2.entries_over_err ∧
      v1.max_id = v2.max_id ∧ v1.max_val = v2.max_val ∧ v1.max_dup = v2.max_dup ∧
      v1.outcome = v2.outcome ∧
      v1.good_pass = v2.good_pass ∧ v1.bad_pass = v2.bad_pass ∧
      ((initState 8).prev_fails = laterBoundary.prev_fails →
        v1.high_fail = v2.high_fail ∧ v1.single_fail = v2.single_fail ∧
        (recordAll (initState 8) (unanimousWindow 1)).1.prev_fails
          = (recordAll laterBoundary (List.replicate 20 (peaked 8 1))).1.prev_fails) :=
  window_verdict_determined_by_winners 8 (initState 8) laterBoundary (unanimousWindow 1)
    (List.replicate 20 (peaked 8 1)) rfl rfl rfl rfl (by decide) (by decide) (by decide)

set_option maxRecDepth 100000 in
/-- C19 on the window in which label 0 wins 10 runs and labels 1 and 2 win 5
each: it is Ambiguous. -/
theorem ambiguous_iff_ten_five_five_witness :
    (recordAll (initState 8) splitWindow).2.getD 19 none = some splitVerdict ∧
    splitVerdict.counts.sum = 20 ∧
    (splitVerdict.outcome = [Outcome.Ambiguous] ↔
      (splitVerdict.counts.filter (fun t => decide (t ≠ 0))).Perm [10, 5, 5]) :=
  ⟨by decide,
   (ambiguous_iff_ten_five_five 8 (by decide) splitWindow (by decide) 19 splitVerdict
      (by decide)).1,
   (ambiguous_iff_ten_five_five 8 (by decide) splitWindow (by decide) 19 splitVerdict
      (by decide)).2.1⟩

set_option maxRecDepth 100000 in
/-- C20 on the window that label 1 wins 20 times out of 20. -/
theorem clear_winner_has_ten_runs_witness :
    (recordAll (initState 8) (unanimousWindow 1)).2.getD 19 none = some unanimousVerdict ∧
    10 ≤ unanimousVerdict.max_val ∧
    unanimousVerdict.counts.getD unanimousVerdict.max_id 0 = unanimousVerdict.max_val ∧
    unanimousVerdict.max_dup ≤ 2 ∧ unanimousVerdict.entries_over_min ≤ 2 ∧
    unanimousVerdict.entries_over_min ≤ unanimousVerdict.entries_over_err ∧
    unanimousVerdict.entries_over_err ≤ 4 :=
  ⟨by decide,
   ((clear_winner_has_ten_runs 8 (by decide) (unanimousWindow 1) (by decide) 19
      unanimousVerdict (by decide)).1 (Or.inl rfl)).1,
   ((clear_winner_has_ten_runs 8 (by decide) (unanimousWindow 1) (by decide) 19
      unanimousVerdict (by decide)).1 (Or.inl rfl)).2.1,
   ((clear_winner_has_ten_runs 8 (by decide) (unanimousWindow 1) (by decide) 19
      unanimousVerdict (by decide)).1 (Or.inl rfl)).2.2.1,
   ((clear_winner_has_ten_runs 8 (by decide) (unanimousWindow 1) (by decide) 19
      unanimousVerdict (by decide)).1 (Or.inl rfl)).2.2.2,
   (clear_winner_has_ten_runs 8 (by decide) (unanimousWindow 1) (by decide) 19
      unanimousVerdict (by decide)).2.1,
   (clear_winner_has_ten_runs 8 (by decide) (unanimousWindow 1) (by decide) 19
      unanimousVerdict (by decide)).2.2⟩


set_option maxRecDepth 100000 in
/-- C6 on the window that labels 5 and 2 win in turn: two leading zero
counts, then a tie at 10 between labels 2 and 5. -/
theorem scan_finds_first_maximum_witness :
    (recordAll (initState 8) tieWindow).2.getD 19 none = some tieVerdict ∧
    tieVerdict.max_id < tieVerdict.counts.length ∧
    tieVerdict.counts.getD tieVerdict.max_id 0 = tieVerdict.max_val ∧
    (∀ t ∈ tieVerdict.counts, t ≤ tieVerdict.max_val) ∧
    (∀ i, i < tieVerdict.max_id → tieVerdict.counts.getD i 0 < tieVerdict.max_val) ∧
    tieVerdict.max_dup = tieVerdict.counts.count tieVerdict.max_val :=
  ⟨by decide,
   (scan_finds_first_maximum 8 (by decide) tieWindow (by decide) 19 tieVerdict
      (by decide)).2.2.2.2⟩

set_option maxRecDepth 100000 in
/-- C7 on two windows: counts 10, 5, 4, 1 give tallies 1 and 2; counts
9, 5, 4, 2 give tallies 0 and 2. -/
theorem tallies_count_labels_over_thresholds_witness :
    ((recordAll (initState 8) (blockWindow 10 5 4 1)).2.getD 19 none = some onThresholdVerdict ∧
      onThresholdVerdict.entries_over_min
        = onThresholdVerdict.counts.countP (fun t => decide (10 ≤ t)) ∧
      onThresholdVerdict.entries_over_err
        = onThresholdVerdict.counts.countP (fun t => decide (5 ≤ t)) ∧
      1 ≤ onThresholdVerdict.entries_over_min ∧ 1 ≤ onThresholdVerdict.entries_over_err) ∧
    ((recordAll (initState 8) (blockWindow 9 5 4 2)).2.getD 19 none
        = some underThresholdVerdict ∧
      underThresholdVerdict.entries_over_min = 0 ∧
      underThresholdVerdict.entries_over_err
        = underThresholdVerdict.counts.countP (fun t => decide (5 ≤ t))) :=
  ⟨⟨by decide,
    (tallies_count_labels_over_thresholds 8 (by decide) (blockWindow 10 5 4 1) (by decide) 19
      onThresholdVerdict (by decide)).2.2.2.2.2.2.2.1,
    (tallies_count_labels_over_thresholds 8 (by decide) (blockWindow 10 5 4 1) (by decide) 19
      onThresholdVerdict (by decide)).2.2.2.2.2.2.2.2.1,
    (tallies_count_labels_over_thresholds 8 (by decide) (blockWindow 10 5 4 1) (by decide) 19
      onThresholdVerdict (by decide)).2.2.2.2.2.2.2.2.2.1 0 rfl,
    (tallies_count_labels_over_thresholds 8 (by decide) (blockWindow 10 5 4 1) (by decide) 19
      onThresholdVerdict (by decide)).2.2.2.2.2.2.2.2.2.2.1 1 rfl⟩,
   ⟨by decide,
    (tallies_count_labels_over_thresholds 8 (by decide) (blockWindow 9 5 4 2) (by decide) 19
      underThresholdVerdict (by decide)).2.2.2.2.2.2.2.2.2.2.2.1 (by decide),
    (tallies_count_labels_over_thresholds 8 (by decide) (blockWindow 9 5 4 2) (by decide) 19
      underThresholdVerdict (by decide)).2.2.2.2.2.2.2.2.1⟩⟩

end VibrationDemo
